import Mathlib

/-!
Verification development for the inventory record-keeper.

Shallow embedding of the client-side synchronization engine and the tabular
(CSV) import/export codec.  JS strings are modelled as lists of characters
(`Str`), JS numbers holding integral quantities as `Int`, and the
synthesized unique identifier strings (produced in the source from
`Date.now()` / `Math.random()`) as natural-number tokens drawn from a
counter.  Fallible operations return `Except`/`Option`.
-/

set_option maxHeartbeats 1000000

namespace Inventory

/-- A JS string, modelled by its character sequence. -/
abbrev Str := List Char

/-- Decidable equality of fallible results, so concrete parses can be
checked by evaluation. -/
instance instDecEqExcept {ε α : Type} [DecidableEq ε] [DecidableEq α] :
    DecidableEq (Except ε α)
  | .error e, .error e' =>
    if h : e = e' then .isTrue (by rw [h]) else .isFalse (by simp [h])
  | .error _, .ok _ => .isFalse (by simp)
  | .ok _, .error _ => .isFalse (by simp)
  | .ok a, .ok a' =>
    if h : a = a' then .isTrue (by rw [h]) else .isFalse (by simp [h])

/-! ### JS string primitives used by the source -/

/-- Whitespace test used by `String.prototype.trim`. -/
def isWS (c : Char) : Bool := c.isWhitespace

/-- JS `s.trim()`: strip leading and trailing whitespace. -/
def trimChars (l : Str) : Str :=
  ((l.dropWhile isWS).reverse.dropWhile isWS).reverse

/-- JS `s.toLowerCase()` (ASCII fragment). -/
def toLowerStr (l : Str) : Str := l.map Char.toLower

/-- JS `s.split(c)` for a single-character separator: splits on every
occurrence, keeping empty pieces. -/
def splitChar (c : Char) : Str → List Str
  | [] => [[]]
  | ch :: rest =>
    match splitChar c rest with
    | [] => [[ch]]
    | f :: fs => if ch = c then [] :: f :: fs else (ch :: f) :: fs

/-- JS `parts.join(c)` for a single-character separator. -/
def joinChar (c : Char) : List Str → Str
  | [] => []
  | [r] => r
  | r :: rs => r ++ c :: joinChar c rs

/-! ### JS number parsing and printing (decimal integers) -/

/-- Decimal digit character for a digit value below ten. -/
def digitChar : Nat → Char
  | 0 => '0' | 1 => '1' | 2 => '2' | 3 => '3' | 4 => '4'
  | 5 => '5' | 6 => '6' | 7 => '7' | 8 => '8' | _ => '9'

/-- Numeric value of a decimal digit character. -/
def digitVal (c : Char) : Nat := c.toNat - 48

/-- Value of a digit run, most significant first. -/
def digitsVal (l : Str) : Nat := l.foldl (fun a c => 10 * a + digitVal c) 0

/-- Decimal rendering of a natural number; the fuel argument only has to
exceed the number of digits, which `natToStr` guarantees. -/
def natToStrAux : Nat → Nat → Str
  | 0, _ => []
  | fuel + 1, n =>
    if n < 10 then [digitChar n]
    else natToStrAux fuel (n / 10) ++ [digitChar (n % 10)]

/-- JS `String(n)` for a nonnegative integral number. -/
def natToStr (n : Nat) : Str := natToStrAux (n + 1) n

/-- JS `String(q)` for an integral number. -/
def intToStr : Int → Str
  | .ofNat n => natToStr n
  | .negSucc n => '-' :: natToStr (n + 1)

/-- Leading digit run of a string, or `none` when there is none. -/
def parseDigits (l : Str) : Option Nat :=
  let ds := l.takeWhile Char.isDigit
  if ds.isEmpty then none else some (digitsVal ds)

/-- Sign-and-digit-run phase of `parseInt`, after whitespace skipping. -/
def parseIntBody : Str → Option Int
  | [] => none
  | c :: rest =>
    if c = '-' then
      match parseDigits rest with
      | none => none
      | some n => some (-(n : Int))
    else if c = '+' then
      match parseDigits rest with
      | none => none
      | some n => some ((n : Int))
    else
      match parseDigits (c :: rest) with
      | none => none
      | some n => some ((n : Int))

/-- JS `parseInt(s)` restricted to decimal notation: skip leading
whitespace, read an optional sign and then a maximal digit run, ignoring
any trailing characters; no digits means `NaN`, modelled as `none`. -/
def parseIntJS (s : Str) : Option Int := parseIntBody (s.dropWhile isWS)

/-- JS `String(b)` for a boolean. -/
def boolStr (b : Bool) : Str := if b then "true".data else "false".data

/-! ### Record model (`types/inventory`) -/

/-- A size variant of an inventory item. -/
structure SizeVariant where
  id : Nat
  size : Str
  inStock : Bool
  quantity : Int
  location : Str
deriving DecidableEq, Repr

/-- An inventory item. -/
structure InventoryItem where
  id : Nat
  sku : Str
  title : Str
  imageUrl : Option Str
  variants : List SizeVariant
  customFields : List (Str × Str)
deriving DecidableEq, Repr

/-- Validated form payload (`InventoryFormData`); `customFields` is absent
(`none`) when the submitting form does not carry custom fields. -/
structure InventoryFormData where
  sku : Str
  title : Str
  imageUrl : Option Str
  variants : List SizeVariant
  customFields : Option (List (Str × Str))
deriving DecidableEq, Repr

/-- A user-defined extra attribute definition. -/
structure CustomFieldDefinition where
  id : Str
  label : Str
  kind : Str
deriving DecidableEq, Repr

/-! ### CSV tokenizer (the character loop inside `parseCSV`) -/

/-- State of the quote-aware field tokenizer: fields emitted so far, the
field under construction, and whether we are inside a quoted region. -/
structure TokState where
  fields : List Str
  current : Str
  inQuotes : Bool
deriving DecidableEq, Repr

/-- One character step of the tokenizer: a double quote only toggles the
quoting state, a delimiter outside quotes emits the trimmed current field,
any other character is appended to the current field. -/
def tokStep (st : TokState) (ch : Char) : TokState :=
  if ch = '"' then { st with inQuotes := !st.inQuotes }
  else if ch = ',' ∧ st.inQuotes = false then
    { fields := st.fields ++ [trimChars st.current], current := [], inQuotes := st.inQuotes }
  else { st with current := st.current ++ [ch] }

/-- Run the tokenizer over a line from the initial state. -/
def tokAux (line : Str) : TokState := line.foldl tokStep ⟨[], [], false⟩

/-- Field list produced for one line: the emitted fields followed by the
final (trimmed) current field. -/
def tokenizeLine (line : Str) : List Str :=
  (tokAux line).fields ++ [trimChars (tokAux line).current]

/-! ### CSV parsing and SKU merge (`parseCSV`) -/

/-- Parse failure of the whole file. -/
inductive ParseError where
  | emptyOrMalformed
deriving DecidableEq, Repr

/-- An item produced by the import codec (`Omit<InventoryItem, 'id'>`). -/
structure ParsedItem where
  sku : Str
  title : Str
  imageUrl : Option Str
  variants : List SizeVariant
deriving DecidableEq, Repr

/-- Folding state of the row merge: the SKU-keyed item map in first-seen
order, and the counter supplying fresh variant identifiers. -/
structure ParseState where
  itemsMap : List (Str × ParsedItem)
  nextId : Nat
deriving DecidableEq, Repr

/-- First-match lookup in the SKU map (JS `Map.get`). -/
def findEntry : List (Str × ParsedItem) → Str → Option ParsedItem
  | [], _ => none
  | (k, v) :: rest, key => if k = key then some v else findEntry rest key

/-- Update the first entry with the given key (JS `Map.get` returning a
mutable reference; keys are unique by construction). -/
def mapUpdate (m : List (Str × ParsedItem)) (k : Str) (f : ParsedItem → ParsedItem) :
    List (Str × ParsedItem) :=
  match m with
  | [] => []
  | (k', v) :: rest => if k' = k then (k', f v) :: rest else (k', v) :: mapUpdate rest k f

/-- Build one variant per size, all sharing the row's stock flag, quantity
and location, with identifiers drawn from the counter. -/
def mkVariants : List Str → Bool → Int → Str → Nat → List SizeVariant
  | [], _, _, _, _ => []
  | s :: rest, st, q, loc, i => ⟨i, s, st, q, loc⟩ :: mkVariants rest st q loc (i + 1)

/-- Process one data row: tokenize, skip the row when fewer than six fields
resolve, otherwise parse the fields and merge into the SKU map (first row
for a SKU creates the item; every row appends its variants). -/
def processLine (st : ParseState) (line : Str) : ParseState :=
  let fields := tokenizeLine line
  if fields.length < 6 then st
  else
    let sku := fields.getD 0 []
    let title := fields.getD 1 []
    let sizeStr := fields.getD 2 []
    let inStockStr := fields.getD 3 []
    let quantityStr := fields.getD 4 []
    let location := fields.getD 5 []
    let imageUrl := fields.getD 6 []
    let sizes := ((splitChar ',' sizeStr).map trimChars).filter (fun s => !s.isEmpty)
    let inStock : Bool :=
      decide (toLowerStr inStockStr = "true".data) || decide (inStockStr = "1".data)
    let quantity : Int := (parseIntJS quantityStr).getD 0
    let skuKey := trimChars sku
    match findEntry st.itemsMap skuKey with
    | some _ =>
      { itemsMap := mapUpdate st.itemsMap skuKey (fun item =>
          { item with variants :=
              item.variants ++ mkVariants sizes inStock quantity (trimChars location) st.nextId }),
        nextId := st.nextId + sizes.length }
    | none =>
      let item : ParsedItem :=
        { sku := skuKey
          title := trimChars title
          imageUrl := if (trimChars imageUrl).isEmpty then none else some (trimChars imageUrl)
          variants := mkVariants sizes inStock quantity (trimChars location) st.nextId }
      { itemsMap := st.itemsMap ++ [(skuKey, item)], nextId := st.nextId + sizes.length }

/-- Fold the row merge over the data lines. -/
def processRows (lines : List Str) (st : ParseState) : ParseState :=
  lines.foldl processLine st

/-- A data row that resolves to fewer than six fields (skipped with a
console warning in the source). -/
def badRow (line : Str) : Bool := decide ((tokenizeLine line).length < 6)

/-- The import parser, with the count of skipped (warned-about) rows:
split into lines, drop blank lines, fail when fewer than two lines remain,
otherwise fold the rows after the header into the SKU map and return its
values in first-seen order. -/
def parseCSVFull (text : Str) : Except ParseError (List ParsedItem × Nat) :=
  let lines := (splitChar '\n' text).filter (fun l => !(trimChars l).isEmpty)
  if lines.length < 2 then .error .emptyOrMalformed
  else
    let dataLines := lines.drop 1
    let st := processRows dataLines ⟨[], 0⟩
    .ok (st.itemsMap.map Prod.snd, dataLines.countP badRow)

/-- The import parser as the source exposes it: the merged item list. -/
def parseCSV (text : Str) : Except ParseError (List ParsedItem) :=
  (parseCSVFull text).map Prod.fst

/-! ### Import hand-off (`handleImport` / `handleCSVImport`) -/

/-- Failure of the import operation as reported to the user. -/
inductive ImportError where
  | parseErr (e : ParseError)
  | noValidData
deriving DecidableEq, Repr

/-- Attach fresh item identifiers to the parsed items (the source maps
each imported item to a synthesized unique id). -/
def assignIds : Nat → List ParsedItem → List InventoryItem
  | _, [] => []
  | n, p :: rest => ⟨n, p.sku, p.title, p.imageUrl, p.variants, []⟩ :: assignIds (n + 1) rest

/-- App-side import: append the imported items, with fresh ids, to the
current item list. -/
def handleCSVImport (items : List InventoryItem) (parsed : List ParsedItem) (baseId : Nat) :
    List InventoryItem :=
  items ++ assignIds baseId parsed

/-- Dialog-side import: parse the text; a parse failure or an empty item
list aborts the import leaving the in-memory items unchanged, otherwise
the items are handed to the app and appended. -/
def handleImport (text : Str) (items : List InventoryItem) (baseId : Nat) :
    List InventoryItem × Option ImportError :=
  match parseCSV text with
  | .error e => (items, some (.parseErr e))
  | .ok parsed =>
    if parsed.isEmpty then (items, some .noValidData)
    else (handleCSVImport items parsed baseId, none)

/-! ### CSV export (`handleExportCSV`) -/

/-- The fixed header row. -/
def headerStr : Str := "SKU,TITLE,SIZE,IN STOCK,QUANTITY,LOCATION,IMAGE_URL".data

/-- One output row for an (item, variant) pair, fields joined unquoted by
the delimiter. -/
def rowOf (item : InventoryItem) (v : SizeVariant) : Str :=
  joinChar ','
    [item.sku, item.title, v.size, boolStr v.inStock, intToStr v.quantity,
     v.location, item.imageUrl.getD []]

/-- Export: the header followed by one row per (item, variant) pair, joined
by newlines.  (The source additionally refuses to produce a file when the
item list is empty.) -/
def exportCSV (items : List InventoryItem) : Str :=
  joinChar '\n' (headerStr :: items.flatMap (fun it => it.variants.map (rowOf it)))

/-! ### App mutations (`App` in the main component) -/

/-- Add a new item built from validated form data. -/
def handleAddItem (items : List InventoryItem) (d : InventoryFormData) (newId : Nat) :
    List InventoryItem :=
  items ++ [⟨newId, d.sku, d.title, d.imageUrl, d.variants, d.customFields.getD []⟩]

/-- Edit an existing item: the form data's fields overwrite the item's. -/
def handleEditItem (items : List InventoryItem) (editingId : Nat) (d : InventoryFormData) :
    List InventoryItem :=
  items.map fun it =>
    if it.id = editingId then
      { it with
          sku := d.sku
          title := d.title
          imageUrl := d.imageUrl
          variants := d.variants
          customFields := d.customFields.getD it.customFields }
    else it

/-- Delete an item. -/
def handleDeleteItem (items : List InventoryItem) (id : Nat) : List InventoryItem :=
  items.filter fun it => it.id != id

/-- Clamp the quantity to zero, update the targeted variant and derive its
stock flag from the clamped quantity. -/
def handleUpdateQuantity (items : List InventoryItem) (itemId variantId : Nat)
    (newQuantity : Int) : List InventoryItem :=
  let quantity := max 0 newQuantity
  items.map fun item =>
    if item.id = itemId then
      { item with variants := item.variants.map fun v =>
          if v.id = variantId then
            { v with quantity := quantity, inStock := decide (0 < quantity) }
          else v }
    else item

/-- Update the targeted variant's location. -/
def handleUpdateLocation (items : List InventoryItem) (itemId variantId : Nat)
    (newLocation : Str) : List InventoryItem :=
  items.map fun item =>
    if item.id = itemId then
      { item with variants := item.variants.map fun v =>
          if v.id = variantId then { v with location := newLocation } else v }
    else item

/-- Update an item's SKU. -/
def handleUpdateSKU (items : List InventoryItem) (itemId : Nat) (newSKU : Str) :
    List InventoryItem :=
  items.map fun it => if it.id = itemId then { it with sku := newSKU } else it

/-- Update an item's title. -/
def handleUpdateTitle (items : List InventoryItem) (itemId : Nat) (newTitle : Str) :
    List InventoryItem :=
  items.map fun it => if it.id = itemId then { it with title := newTitle } else it

/-- Append a new out-of-stock, zero-quantity variant with the given size. -/
def handleAddVariant (items : List InventoryItem) (itemId : Nat) (size : Str)
    (newVid : Nat) : List InventoryItem :=
  items.map fun item =>
    if item.id = itemId then
      { item with variants := item.variants ++ [⟨newVid, size, false, 0, []⟩] }
    else item

/-- Delete a variant; an attempt on an item holding at most one variant is
rejected and the item returned unchanged. -/
def handleDeleteVariant (items : List InventoryItem) (itemId variantId : Nat) :
    List InventoryItem :=
  items.map fun item =>
    if item.id = itemId then
      if item.variants.length ≤ 1 then item
      else { item with variants := item.variants.filter fun v => v.id != variantId }
    else item

/-! ### Operation sequences over the item list

Structural mutations synthesize fresh identifiers in the source
(`Date.now()` and friends); here a counter threaded through the state
supplies them, so an application state is an item list paired with the
next fresh identifier. -/

/-- A public mutation of the inventory, as dispatched by the app. -/
inductive Op where
  | addItem (d : InventoryFormData)
  | editItem (editingId : Nat) (d : InventoryFormData)
  | deleteItem (id : Nat)
  | csvImport (text : Str)
  | addVariant (itemId : Nat) (size : Str)
  | deleteVariant (itemId variantId : Nat)
  | updateQuantity (itemId variantId : Nat) (q : Int)
  | updateLocation (itemId variantId : Nat) (loc : Str)
  | updateSKU (itemId : Nat) (sku : Str)
  | updateTitle (itemId : Nat) (t : Str)
deriving Repr

/-- Item list together with the fresh-identifier counter. -/
abbrev ItemsState := List InventoryItem × Nat

/-- Apply one public mutation; a CSV import whose parse fails or yields no
items is aborted with the state unchanged (as `handleImport` does). -/
def applyOp (s : ItemsState) : Op → ItemsState
  | .addItem d => (handleAddItem s.1 d s.2, s.2 + 1)
  | .editItem editingId d => (handleEditItem s.1 editingId d, s.2)
  | .deleteItem id => (handleDeleteItem s.1 id, s.2)
  | .csvImport text =>
    match parseCSV text with
    | .error _ => s
    | .ok parsed =>
      if parsed.isEmpty then s
      else (handleCSVImport s.1 parsed s.2, s.2 + parsed.length)
  | .addVariant itemId size => (handleAddVariant s.1 itemId size s.2, s.2 + 1)
  | .deleteVariant itemId variantId => (handleDeleteVariant s.1 itemId variantId, s.2)
  | .updateQuantity itemId variantId q => (handleUpdateQuantity s.1 itemId variantId q, s.2)
  | .updateLocation itemId variantId loc => (handleUpdateLocation s.1 itemId variantId loc, s.2)
  | .updateSKU itemId sku => (handleUpdateSKU s.1 itemId sku, s.2)
  | .updateTitle itemId t => (handleUpdateTitle s.1 itemId t, s.2)

/-- Apply a sequence of public mutations in order. -/
def applyOps (s : ItemsState) (ops : List Op) : ItemsState :=
  ops.foldl applyOp s

/-- Wellformed item: at least one variant, and distinct variant
identifiers (the uniqueness the specification demands of synthesized
identifiers). -/
def wfItem (it : InventoryItem) : Bool :=
  !it.variants.isEmpty && decide (it.variants.map (·.id)).Nodup

/-- Wellformed item list. -/
def wfItems (items : List InventoryItem) : Bool := items.all wfItem

/-- Wellformed parsed (imported) item. -/
def wfParsed (p : ParsedItem) : Bool :=
  !p.variants.isEmpty && decide (p.variants.map (·.id)).Nodup

/-- Validity of one mutation in a given state: form payloads carry at
least one variant with distinct identifiers (the forms enforce the
former, identifier synthesis the latter), imported items likewise, and a
freshly synthesized variant identifier does not collide inside its item. -/
def opOK (s : ItemsState) : Op → Bool
  | .addItem d => wfParsed ⟨d.sku, d.title, d.imageUrl, d.variants⟩
  | .editItem _ d => wfParsed ⟨d.sku, d.title, d.imageUrl, d.variants⟩
  | .csvImport text =>
    match parseCSV text with
    | .error _ => true
    | .ok parsed => parsed.all wfParsed
  | .addVariant itemId _ =>
    s.1.all fun it => !(it.id = itemId) || !((it.variants.map (·.id)).contains s.2)
  | _ => true

/-- Validity of a mutation sequence, each step judged in the state it
runs in. -/
def opsOK (s : ItemsState) : List Op → Bool
  | [] => true
  | op :: rest => opOK s op && opsOK (applyOp s op) rest

/-! ### Save scheduler and sync coordinator (`saveNow` / `scheduleSave`) -/

/-- The full in-memory snapshot carried by a remote save. -/
structure Snapshot where
  items : List InventoryItem
  customFields : List CustomFieldDefinition
deriving DecidableEq, Repr

/-- Process state of the sync engine: the in-memory data, the session and
load flags, the dirty flag, the pending debounce timer, the on-device
cache, the log of remote upsert invocations and the count of non-fatal
error toasts. -/
structure AppState where
  items : List InventoryItem
  customFields : List CustomFieldDefinition
  signedIn : Bool
  loaded : Bool
  dirty : Bool
  timerArmed : Bool
  cache : Option Snapshot
  saveCalls : List Snapshot
  warnings : Nat
deriving DecidableEq, Repr

/-- The snapshot a save would carry. -/
def snapshotOf (s : AppState) : Snapshot := ⟨s.items, s.customFields⟩

/-- Immediate save: gated on a signed-in user and the completed first
load, then on the dirty flag; clears any pending timer, invokes the
remote upsert with the current snapshot, and on success clears the dirty
flag while on failure it reports a non-fatal warning and leaves the dirty
flag set.  The `ok` argument is the outcome of the awaited remote call. -/
def saveNow (ok : Bool) (s : AppState) : AppState :=
  if s.signedIn = false ∨ s.loaded = false then s
  else if s.dirty = false then s
  else
    let s1 : AppState := { s with timerArmed := false }
    let s2 : AppState := { s1 with saveCalls := s1.saveCalls ++ [snapshotOf s1] }
    if ok then { s2 with dirty := false }
    else { s2 with warnings := s2.warnings + 1 }

/-- Debounced scheduling: gated on a signed-in user and the completed
first load; marks the state dirty and (re-)arms the debounce timer,
cancelling any pending one. -/
def scheduleSave (s : AppState) : AppState :=
  if s.signedIn = false ∨ s.loaded = false then s
  else { s with dirty := true, timerArmed := true }

/-- Debounce timer expiry: consumes the armed timer and runs the
immediate save. -/
def timerFire (ok : Bool) (s : AppState) : AppState :=
  if s.timerArmed then saveNow ok { s with timerArmed := false } else s

/-- One user mutation: the in-memory snapshot is transformed, then the
change watcher (gated on a signed-in user and the completed first load)
writes through to the cache and schedules a debounced save. -/
def mutate (f : Snapshot → Snapshot) (s : AppState) : AppState :=
  let snap := f (snapshotOf s)
  let s1 : AppState := { s with items := snap.items, customFields := snap.customFields }
  if s1.signedIn = false ∨ s1.loaded = false then s1
  else scheduleSave { s1 with cache := some (snapshotOf s1) }

/-- Apply a burst of mutations, all landing inside the debounce window. -/
def mutateAll (fs : List (Snapshot → Snapshot)) (s : AppState) : AppState :=
  fs.foldl (fun st f => mutate f st) s

/-! ### Remote store (`inventoryApi`) -/

/-- A remote row, keyed off-table by the user identity. -/
structure RemoteRow where
  inventory : List InventoryItem
  customFields : List CustomFieldDefinition
  updatedAt : Nat
deriving DecidableEq, Repr

/-- The remote table: identity-keyed rows.  The upsert conflict target is
the identity column, so an insert with `ignoreDuplicates` leaves an
existing row untouched (the §6 contract of the remote store). -/
abbrev RemoteDB := List (Str × RemoteRow)

/-- Point lookup by identity. -/
def dbFind : RemoteDB → Str → Option RemoteRow
  | [], _ => none
  | (k, r) :: rest, uid => if k = uid then some r else dbFind rest uid

/-- Ensure a row exists for the identity: upsert of the empty row with
conflict target the identity and ignore-duplicates semantics, so an
existing row is never overwritten. -/
def ensureUserRow (db : RemoteDB) (uid : Str) (now : Nat) : RemoteDB :=
  match dbFind db uid with
  | some _ => db
  | none => db ++ [(uid, ⟨[], [], now⟩)]

/-! ### Round-trip observation: the (sku, size, quantity, location, stock)
tuples of an item collection -/

/-- The observable content of one variant row. -/
abbrev Tup := Str × Str × Int × Str × Bool

/-- Tuple of a variant under its item's SKU. -/
def pTuple (sku : Str) (v : SizeVariant) : Tup :=
  (sku, v.size, v.quantity, v.location, v.inStock)

/-- Tuples of a parsed item. -/
def itemTuples (p : ParsedItem) : List Tup := p.variants.map (pTuple p.sku)

/-- Tuples of a parsed item list. -/
def ptuples (l : List ParsedItem) : List Tup := l.flatMap itemTuples

/-- Tuples of an in-memory item list. -/
def ituples (items : List InventoryItem) : List Tup :=
  items.flatMap fun it => it.variants.map (pTuple it.sku)

/-- A field value that survives the unquoted export/import cycle intact:
trim-invariant and free of delimiter, quote and newline characters. -/
def cleanField (f : Str) : Bool :=
  decide (trimChars f = f) && !f.contains ',' && !f.contains '"' && !f.contains '\n'

/-- An item whose every exported field is clean and whose sizes are
nonempty. -/
def cleanItem (it : InventoryItem) : Bool :=
  cleanField it.sku && cleanField it.title && cleanField (it.imageUrl.getD []) &&
    it.variants.all fun v => cleanField v.size && !v.size.isEmpty && cleanField v.location

/-- The (item, variant) pairs an export flattens into rows. -/
def pairsOf (items : List InventoryItem) : List (InventoryItem × SizeVariant) :=
  items.flatMap fun it => it.variants.map fun v => (it, v)

/-- The export row of an (item, variant) pair. -/
def rowOfPair (p : InventoryItem × SizeVariant) : Str := rowOf p.1 p.2

/-- The observable tuple of an (item, variant) pair. -/
def tupOfPair (p : InventoryItem × SizeVariant) : Tup :=
  (p.1.sku, p.2.size, p.2.quantity, p.2.location, p.2.inStock)

/-- An (item, variant) pair whose exported fields survive the round
trip. -/
def cleanPair (p : InventoryItem × SizeVariant) : Bool :=
  cleanField p.1.sku && cleanField p.1.title && cleanField (p.1.imageUrl.getD []) &&
    cleanField p.2.size && !p.2.size.isEmpty && cleanField p.2.location

/-- The observable tuples held by a SKU map, as a multiset. -/
def mapTuples (m : List (Str × ParsedItem)) : Multiset Tup :=
  (ptuples (m.map Prod.snd) : List Tup)

/-- Every entry of the SKU map stores its key as the item's SKU. -/
def MapInv (m : List (Str × ParsedItem)) : Prop := ∀ e ∈ m, e.2.sku = e.1

/-- The ten decimal digit characters. -/
def digitChars : Str := "0123456789".data

/-! ### Concrete instances used by example theorems and witnesses -/

/-- The import text of the specification's worked merge example. -/
def mergeExampleText : Str :=
  "SKU,TITLE,SIZE,IN STOCK,QUANTITY,LOCATION,IMAGE_URL\nA1,Shirt,\"M,L\",true,10,R1,\nA1,Shirt,XL,false,0,R2,".data

/-- An import text whose single data row carries an empty SIZE field. -/
def emptySizeText : Str :=
  "SKU,TITLE,SIZE,IN STOCK,QUANTITY,LOCATION,IMAGE_URL\nA1,Shirt,,true,10,R1,".data

/-- A single item whose variant size contains the delimiter. -/
def commaSizeItems : List InventoryItem :=
  [⟨0, "A".data, "T".data, none, [⟨1, "M,L".data, true, 1, "R1".data⟩], []⟩]

/-- A small clean inventory. -/
def cleanSampleItems : List InventoryItem :=
  [⟨0, "B1".data, "Shirt".data, none,
    [⟨1, "M".data, true, 2, "R1".data⟩, ⟨2, "L".data, false, 0, "R2".data⟩], []⟩]

/-- A sample signed-in, loaded, clean application state. -/
def sampleState : AppState :=
  { items := cleanSampleItems
    customFields := []
    signedIn := true
    loaded := true
    dirty := false
    timerArmed := false
    cache := none
    saveCalls := []
    warnings := 0 }

/-- A sample remote table holding one row with data. -/
def sampleDB : RemoteDB :=
  [("u1".data, ⟨cleanSampleItems, [], 5⟩)]

/-! ## Claim theorems -/

/-- C2: parsing the header line plus the two data rows
`A1,Shirt,"M,L",true,10,R1,` and `A1,Shirt,XL,false,0,R2,` yields exactly
one item with SKU `A1` and title `Shirt` whose variants are, in order,
`M` (quantity 10, location `R1`, in stock), `L` (quantity 10, location
`R1`, in stock) and `XL` (quantity 0, location `R2`, not in stock). -/
theorem merge_example_ok :
    parseCSV mergeExampleText = .ok
      [⟨"A1".data, "Shirt".data, none,
        [⟨0, "M".data, true, 10, "R1".data⟩,
         ⟨1, "L".data, true, 10, "R1".data⟩,
         ⟨2, "XL".data, false, 0, "R2".data⟩]⟩] := by
  rfl

/-- C4: every variant produced by a quantity update is either an untouched
variant of the input, or carries the clamped quantity `max 0 q` — hence a
nonnegative quantity even for negative inputs — together with a stock flag
equal to `quantity > 0`. -/
theorem quantity_clamp_ok (items : List InventoryItem) (itemId variantId : Nat) (q : Int) :
    ∀ it' ∈ handleUpdateQuantity items itemId variantId q, ∀ v' ∈ it'.variants,
      (∃ it ∈ items, v' ∈ it.variants) ∨
      (v'.quantity = max 0 q ∧ 0 ≤ v'.quantity ∧ v'.inStock = decide (0 < v'.quantity)) := by
  intro it' hit' v' hv'
  unfold handleUpdateQuantity at hit'
  simp only [List.mem_map] at hit'
  obtain ⟨it, hit, rfl⟩ := hit'
  by_cases h : it.id = itemId
  · simp only [if_pos h] at hv'
    simp only [List.mem_map] at hv'
    obtain ⟨v, hv, rfl⟩ := hv'
    by_cases h2 : v.id = variantId
    · right
      rw [if_pos h2]
      exact ⟨rfl, le_max_left 0 q, rfl⟩
    · left
      rw [if_neg h2]
      exact ⟨it, hit, hv⟩
  · simp only [if_neg h] at hv'
    exact Or.inl ⟨it, hit, hv'⟩

/-- C4 witness: the clamp property evaluated on a concrete negative
update, at the updated item and variant. -/
theorem quantity_clamp_witness :
    (∃ it ∈ cleanSampleItems,
        (⟨1, "M".data, false, 0, "R1".data⟩ : SizeVariant) ∈ it.variants) ∨
    ((⟨1, "M".data, false, 0, "R1".data⟩ : SizeVariant).quantity = max 0 (-5) ∧
      0 ≤ (⟨1, "M".data, false, 0, "R1".data⟩ : SizeVariant).quantity ∧
      (⟨1, "M".data, false, 0, "R1".data⟩ : SizeVariant).inStock
        = decide (0 < (⟨1, "M".data, false, 0, "R1".data⟩ : SizeVariant).quantity)) :=
  quantity_clamp_ok cleanSampleItems 0 1 (-5)
    ⟨0, "B1".data, "Shirt".data, none,
      [⟨1, "M".data, false, 0, "R1".data⟩, ⟨2, "L".data, false, 0, "R2".data⟩], []⟩
    (by decide) ⟨1, "M".data, false, 0, "R1".data⟩ (by decide)

/-- C8: while the first authoritative load has not completed (or no user
is signed in), both the debounced scheduling path and the immediate save
path are no-ops: the state is unchanged, so no timer is armed and no
remote upsert is issued. -/
theorem load_gating_ok (s : AppState) (ok : Bool)
    (h : s.loaded = false ∨ s.signedIn = false) :
    scheduleSave s = s ∧ saveNow ok s = s := by
  have h' : s.signedIn = false ∨ s.loaded = false := h.symm
  constructor
  · unfold scheduleSave
    rw [if_pos h']
  · unfold saveNow
    rw [if_pos h']

/-- C8 witness: gating evaluated on a concrete not-yet-loaded state. -/
theorem load_gating_witness :
    scheduleSave { sampleState with loaded := false } = { sampleState with loaded := false } ∧
      saveNow true { sampleState with loaded := false } = { sampleState with loaded := false } :=
  load_gating_ok { sampleState with loaded := false } true (Or.inl rfl)

/-- C9: the ensure-row upsert inserts the empty row only when no row
exists for the identity; an existing row — whatever it holds — is left
unchanged by any number of calls, and a second call never alters the
result of a first. -/
theorem ensure_row_ok (db : RemoteDB) (uid : Str) (now : Nat) :
    (∀ r, dbFind db uid = some r → ensureUserRow db uid now = db) ∧
    (dbFind db uid = none → ensureUserRow db uid now = db ++ [(uid, ⟨[], [], now⟩)]) ∧
    (∀ r, dbFind db uid = some r →
      ∀ n, (fun d => ensureUserRow d uid now)^[n] db = db) ∧
    (∀ now2, ensureUserRow (ensureUserRow db uid now) uid now2 = ensureUserRow db uid now) := by
  have hsome : ∀ now' r, dbFind db uid = some r → ensureUserRow db uid now' = db := by
    intro now' r hr
    unfold ensureUserRow
    rw [hr]
  have hnone : dbFind db uid = none →
      ensureUserRow db uid now = db ++ [(uid, ⟨[], [], now⟩)] := by
    intro hr
    unfold ensureUserRow
    rw [hr]
  have happend : ∀ (d : RemoteDB) (r : RemoteRow), dbFind d uid = none →
      dbFind (d ++ [(uid, r)]) uid = some r := by
    intro d r hd
    induction d with
    | nil => simp [dbFind]
    | cons e rest ih =>
      obtain ⟨k, v⟩ := e
      simp only [List.cons_append, dbFind] at hd ⊢
      by_cases he : k = uid
      · rw [if_pos he] at hd
        exact Option.noConfusion hd
      · rw [if_neg he] at hd ⊢
        exact ih hd
  refine ⟨hsome now, hnone, ?_, ?_⟩
  · intro r hr n
    induction n with
    | zero => rfl
    | succ k ih =>
      rw [Function.iterate_succ_apply, hsome now r hr]
      exact ih
  · intro now2
    cases hfind : dbFind db uid with
    | some r =>
      rw [hsome now r hfind, hsome now2 r hfind]
    | none =>
      rw [hnone hfind]
      unfold ensureUserRow
      rw [happend db ⟨[], [], now⟩ hfind]

/-- C9 witness: ensure-row evaluated on a concrete table with an existing
non-empty row, and on a concrete empty table. -/
theorem ensure_row_witness :
    ensureUserRow sampleDB "u1".data 9 = sampleDB ∧
      ensureUserRow [] "u2".data 9 = [("u2".data, ⟨[], [], 9⟩)] :=
  ⟨(ensure_row_ok sampleDB "u1".data 9).1 ⟨cleanSampleItems, [], 5⟩ (by decide),
   (ensure_row_ok [] "u2".data 9).2.1 (by decide)⟩

/-- C7: a failed remote save rolls nothing back — the in-memory items,
custom fields and the cache snapshot are unchanged — reports one
non-fatal warning, and leaves the dirty flag set, so the next trigger
(here an immediate flush) retries the very same snapshot and only then
clears the dirty flag. -/
theorem save_failure_retry_ok (s : AppState) (h1 : s.signedIn = true)
    (h2 : s.loaded = true) (h3 : s.dirty = true) :
    (saveNow false s).items = s.items ∧
    (saveNow false s).customFields = s.customFields ∧
    (saveNow false s).cache = s.cache ∧
    (saveNow false s).dirty = true ∧
    (saveNow false s).warnings = s.warnings + 1 ∧
    (saveNow false s).saveCalls = s.saveCalls ++ [snapshotOf s] ∧
    (saveNow true (saveNow false s)).saveCalls
        = s.saveCalls ++ [snapshotOf s, snapshotOf s] ∧
    (saveNow true (saveNow false s)).dirty = false := by
  refine ⟨?_, ?_, ?_, ?_, ?_, ?_, ?_, ?_⟩ <;>
    simp [saveNow, snapshotOf, h1, h2, h3]

/-- C7 witness: the failure path evaluated on a concrete dirty state. -/
theorem save_failure_retry_witness :
    (saveNow false { sampleState with dirty := true }).items = cleanSampleItems ∧
    (saveNow false { sampleState with dirty := true }).customFields = [] ∧
    (saveNow false { sampleState with dirty := true }).cache = none ∧
    (saveNow false { sampleState with dirty := true }).dirty = true ∧
    (saveNow false { sampleState with dirty := true }).warnings = 0 + 1 ∧
    (saveNow false { sampleState with dirty := true }).saveCalls
        = [] ++ [snapshotOf { sampleState with dirty := true }] ∧
    (saveNow true (saveNow false { sampleState with dirty := true })).saveCalls
        = [] ++ [snapshotOf { sampleState with dirty := true },
                 snapshotOf { sampleState with dirty := true }] ∧
    (saveNow true (saveNow false { sampleState with dirty := true })).dirty = false :=
  save_failure_retry_ok { sampleState with dirty := true } rfl rfl rfl

/-- One mutation under an active session and a completed load: the
snapshot is transformed and written through to the cache, the state is
marked dirty and the debounce timer re-armed; the flags persist and
nothing is saved remotely. -/
theorem mutate_facts (f : Snapshot → Snapshot) (s : AppState)
    (h1 : s.signedIn = true) (h2 : s.loaded = true) :
    (mutate f s).signedIn = true ∧ (mutate f s).loaded = true ∧
    (mutate f s).saveCalls = s.saveCalls ∧
    (mutate f s).dirty = true ∧ (mutate f s).timerArmed = true ∧
    (mutate f s).items = (f (snapshotOf s)).items ∧
    (mutate f s).customFields = (f (snapshotOf s)).customFields := by
  refine ⟨?_, ?_, ?_, ?_, ?_, ?_, ?_⟩ <;>
    simp [mutate, scheduleSave, snapshotOf, h1, h2]

/-- Flags and the save log across a burst of mutations: the session and
load flags persist, no remote call is logged, and a nonempty burst leaves
the state dirty with the timer armed. -/
theorem mutateAll_facts (fs : List (Snapshot → Snapshot)) (s : AppState)
    (h1 : s.signedIn = true) (h2 : s.loaded = true) :
    (mutateAll fs s).signedIn = true ∧ (mutateAll fs s).loaded = true ∧
    (mutateAll fs s).saveCalls = s.saveCalls ∧
    (fs = [] ∨ ((mutateAll fs s).dirty = true ∧ (mutateAll fs s).timerArmed = true)) := by
  induction fs generalizing s with
  | nil => exact ⟨h1, h2, rfl, Or.inl rfl⟩
  | cons f rest ih =>
    obtain ⟨m1, m2, m3, m4, m5, _, _⟩ := mutate_facts f s h1 h2
    obtain ⟨a1, a2, a3, a4⟩ := ih (mutate f s) m1 m2
    have hstep : mutateAll (f :: rest) s = mutateAll rest (mutate f s) := rfl
    refine ⟨by rw [hstep]; exact a1, by rw [hstep]; exact a2,
      by rw [hstep, a3, m3], Or.inr ?_⟩
    rcases a4 with hrest | hd
    · subst hrest
      exact ⟨by rw [hstep]; exact m4, by rw [hstep]; exact m5⟩
    · rw [hstep]
      exact hd

/-- C6: a nonempty burst of mutations inside the debounce window issues
no remote save of its own, and the eventual timer expiry performs exactly
one remote save, carrying the snapshot after the last mutation; the
expiry appends that one call, clears the timer and dirty flags, and
leaves the data untouched. -/
theorem debounce_coalescing_ok (s : AppState) (fs : List (Snapshot → Snapshot))
    (hne : fs ≠ []) (h1 : s.signedIn = true) (h2 : s.loaded = true) :
    (mutateAll fs s).saveCalls = s.saveCalls ∧
    (timerFire true (mutateAll fs s)).saveCalls
        = s.saveCalls ++ [snapshotOf (mutateAll fs s)] ∧
    (timerFire true (mutateAll fs s)).dirty = false ∧
    (timerFire true (mutateAll fs s)).timerArmed = false ∧
    (timerFire true (mutateAll fs s)).items = (mutateAll fs s).items ∧
    (timerFire true (mutateAll fs s)).customFields = (mutateAll fs s).customFields ∧
    (timerFire true (mutateAll fs s)).cache = (mutateAll fs s).cache := by
  obtain ⟨a1, a2, a3, a4⟩ := mutateAll_facts fs s h1 h2
  rcases a4 with h | ⟨hd, ht⟩
  · exact absurd h hne
  refine ⟨a3, ?_, ?_, ?_, ?_, ?_, ?_⟩ <;>
    simp [timerFire, saveNow, snapshotOf, a1, a2, a3, hd, ht]

/-- C6 witness: a burst of two mutations coalescing into one save. -/
theorem debounce_coalescing_witness :
    (mutateAll [fun snap => ⟨snap.items, snap.customFields⟩,
                fun _ => ⟨[], []⟩] sampleState).saveCalls = sampleState.saveCalls ∧
    (timerFire true (mutateAll [fun snap => ⟨snap.items, snap.customFields⟩,
        fun _ => ⟨[], []⟩] sampleState)).saveCalls
        = sampleState.saveCalls ++
          [snapshotOf (mutateAll [fun snap => ⟨snap.items, snap.customFields⟩,
            fun _ => ⟨[], []⟩] sampleState)] ∧
    (timerFire true (mutateAll [fun snap => ⟨snap.items, snap.customFields⟩,
        fun _ => ⟨[], []⟩] sampleState)).dirty = false ∧
    (timerFire true (mutateAll [fun snap => ⟨snap.items, snap.customFields⟩,
        fun _ => ⟨[], []⟩] sampleState)).timerArmed = false ∧
    (timerFire true (mutateAll [fun snap => ⟨snap.items, snap.customFields⟩,
        fun _ => ⟨[], []⟩] sampleState)).items
        = (mutateAll [fun snap => ⟨snap.items, snap.customFields⟩,
            fun _ => ⟨[], []⟩] sampleState).items ∧
    (timerFire true (mutateAll [fun snap => ⟨snap.items, snap.customFields⟩,
        fun _ => ⟨[], []⟩] sampleState)).customFields
        = (mutateAll [fun snap => ⟨snap.items, snap.customFields⟩,
            fun _ => ⟨[], []⟩] sampleState).customFields ∧
    (timerFire true (mutateAll [fun snap => ⟨snap.items, snap.customFields⟩,
        fun _ => ⟨[], []⟩] sampleState)).cache
        = (mutateAll [fun snap => ⟨snap.items, snap.customFields⟩,
            fun _ => ⟨[], []⟩] sampleState).cache :=
  debounce_coalescing_ok sampleState _ (by simp) rfl rfl

/-- A row resolving to fewer than six fields leaves the merge state
untouched. -/
theorem processLine_skip (st : ParseState) (line : Str) (h : badRow line = true) :
    processLine st line = st := by
  unfold badRow at h
  unfold processLine
  rw [if_pos (of_decide_eq_true h)]

/-- C5: (a) an input with fewer than two non-blank lines fails with the
empty-or-malformed parse error; (b) a data row resolving to fewer than
six fields is skipped — removing or inserting it changes no other row's
processing — while the count of skipped rows grows by exactly one; (c) a
parse that yields zero items makes the import abort with the
no-valid-data error and the in-memory items unchanged. -/
theorem import_error_policy_ok :
    (∀ text : Str,
        ((splitChar '\n' text).filter (fun l => !(trimChars l).isEmpty)).length < 2 →
        parseCSV text = .error .emptyOrMalformed) ∧
    (∀ (pre post : List Str) (line : Str) (st : ParseState), badRow line = true →
        processRows (pre ++ line :: post) st = processRows (pre ++ post) st) ∧
    (∀ (pre post : List Str) (line : Str), badRow line = true →
        (pre ++ line :: post).countP badRow = (pre ++ post).countP badRow + 1) ∧
    (∀ (text : Str) (items : List InventoryItem) (baseId : Nat),
        parseCSV text = .ok [] →
        handleImport text items baseId = (items, some .noValidData)) := by
  refine ⟨?_, ?_, ?_, ?_⟩
  · intro text h
    unfold parseCSV parseCSVFull
    rw [if_pos h]
    rfl
  · intro pre post line st h
    unfold processRows
    rw [List.foldl_append, List.foldl_append, List.foldl_cons, processLine_skip _ _ h]
  · intro pre post line h
    simp [List.countP_append, List.countP_cons, h]
    omega
  · intro text items baseId h
    unfold handleImport
    rw [h]
    rfl

/-- C5 witness: the three error-policy clauses evaluated on concrete
inputs — a one-line file, a four-field data row inserted among good rows,
and an import whose rows all resolve to nothing. -/
theorem import_error_policy_witness :
    parseCSV "SKU,TITLE,SIZE,IN STOCK,QUANTITY,LOCATION,IMAGE_URL".data
        = .error .emptyOrMalformed ∧
    processRows (["A1,Shirt,M,true,10,R1,x".data]
        ++ "bad,row,only,4".data :: ["B2,Hat,S,1,3,R2,".data]) ⟨[], 0⟩
      = processRows (["A1,Shirt,M,true,10,R1,x".data] ++ ["B2,Hat,S,1,3,R2,".data]) ⟨[], 0⟩ ∧
    (["A1,Shirt,M,true,10,R1,x".data] ++ "bad,row,only,4".data
        :: ["B2,Hat,S,1,3,R2,".data]).countP badRow
      = (["A1,Shirt,M,true,10,R1,x".data] ++ ["B2,Hat,S,1,3,R2,".data]).countP badRow + 1 ∧
    handleImport "SKU,TITLE,SIZE,IN STOCK,QUANTITY,LOCATION,IMAGE_URL\nonly,4,fields,here".data
        cleanSampleItems 7 = (cleanSampleItems, some .noValidData) := by
  refine ⟨import_error_policy_ok.1 _ (by decide),
    import_error_policy_ok.2.1 ["A1,Shirt,M,true,10,R1,x".data]
      ["B2,Hat,S,1,3,R2,".data] "bad,row,only,4".data ⟨[], 0⟩ (by decide),
    import_error_policy_ok.2.2.1 ["A1,Shirt,M,true,10,R1,x".data]
      ["B2,Hat,S,1,3,R2,".data] "bad,row,only,4".data (by decide),
    import_error_policy_ok.2.2.2 _ cleanSampleItems 7 (by decide)⟩

/-- Trimming only drops characters: membership in the trimmed string
implies membership in the original. -/
theorem mem_of_mem_trimChars {c : Char} {l : Str} (h : c ∈ trimChars l) : c ∈ l := by
  unfold trimChars at h
  rw [List.mem_reverse] at h
  have h2 := (List.dropWhile_sublist _).subset h
  rw [List.mem_reverse] at h2
  exact (List.dropWhile_sublist _).subset h2

/-- The tokenizer step keeps fields and the current field free of the
double-quote character. -/
theorem tokStep_noquote {st : TokState} (ch : Char)
    (hf : ∀ f ∈ st.fields, '"' ∉ f) (hc : '"' ∉ st.current) :
    (∀ f ∈ (tokStep st ch).fields, '"' ∉ f) ∧ '"' ∉ (tokStep st ch).current := by
  unfold tokStep
  by_cases h1 : ch = '"'
  · rw [if_pos h1]
    exact ⟨hf, hc⟩
  · rw [if_neg h1]
    by_cases h2 : ch = ',' ∧ st.inQuotes = false
    · rw [if_pos h2]
      refine ⟨?_, by simp⟩
      intro f hfmem
      rcases List.mem_append.mp hfmem with hl | hr
      · exact hf f hl
      · rw [List.mem_singleton] at hr
        subst hr
        intro hq
        exact hc (mem_of_mem_trimChars hq)
    · rw [if_neg h2]
      refine ⟨hf, ?_⟩
      intro hq
      rcases List.mem_append.mp hq with hl | hr
      · exact hc hl
      · rw [List.mem_singleton] at hr
        exact h1 hr.symm

/-- Running the tokenizer keeps fields and the current field free of the
double-quote character. -/
theorem tokFold_noquote (line : Str) :
    ∀ (st : TokState), (∀ f ∈ st.fields, '"' ∉ f) → '"' ∉ st.current →
      (∀ f ∈ (line.foldl tokStep st).fields, '"' ∉ f) ∧
        '"' ∉ (line.foldl tokStep st).current := by
  induction line with
  | nil => intro st hf hc; exact ⟨hf, hc⟩
  | cons ch rest ih =>
    intro st hf hc
    obtain ⟨hf', hc'⟩ := tokStep_noquote ch hf hc
    exact ih (tokStep st ch) hf' hc'

/-- Two consecutive double quotes leave the tokenizer state unchanged. -/
theorem tokStep_dquote (st : TokState) : tokStep (tokStep st '"') '"' = st := by
  unfold tokStep
  rw [if_pos rfl, if_pos rfl]
  simp

/-- Inside a quoted region, quote-free input is absorbed verbatim into the
current field: delimiters do not split. -/
theorem tokFold_absorb (b : Str) :
    ∀ (fs : List Str) (cur : Str), '"' ∉ b →
      b.foldl tokStep ⟨fs, cur, true⟩ = ⟨fs, cur ++ b, true⟩ := by
  induction b with
  | nil => intro fs cur _; simp
  | cons ch rest ih =>
    intro fs cur hb
    have hch : ¬ch = '"' := fun h => hb (h ▸ List.mem_cons_self ch rest)
    have hstep : tokStep ⟨fs, cur, true⟩ ch = ⟨fs, cur ++ [ch], true⟩ := by
      unfold tokStep
      rw [if_neg hch, if_neg (by simp)]
    rw [List.foldl_cons, hstep, ih fs (cur ++ [ch]) (fun h => hb (List.mem_cons_of_mem ch h))]
    simp

/-- C10: (a) every field the import tokenizer produces is free of the
double-quote character; (b) the conventional escape of two consecutive
double quotes contributes nothing to any field, wherever it occurs; (c)
after an unbalanced opening quote, the quote-free remainder of the line —
delimiters included — is absorbed into the current field, and
tokenization still succeeds, producing the fields so far plus that final
absorbed field. -/
theorem tokenizer_quote_erasure_ok :
    (∀ (line : Str), ∀ f ∈ tokenizeLine line, '"' ∉ f) ∧
    (∀ (a b : Str), tokenizeLine (a ++ '"' :: '"' :: b) = tokenizeLine (a ++ b)) ∧
    (∀ (a b : Str), (tokAux a).inQuotes = false → '"' ∉ b →
        tokenizeLine (a ++ '"' :: b)
          = (tokAux a).fields ++ [trimChars ((tokAux a).current ++ b)]) := by
  refine ⟨?_, ?_, ?_⟩
  · intro line f hf
    obtain ⟨h1, h2⟩ := tokFold_noquote line ⟨[], [], false⟩ (by simp) (by simp)
    unfold tokenizeLine at hf
    rcases List.mem_append.mp hf with hl | hr
    · exact h1 f hl
    · rw [List.mem_singleton] at hr
      subst hr
      intro hq
      exact h2 (mem_of_mem_trimChars hq)
  · intro a b
    have e2 : tokAux (a ++ ['"', '"']) = tokAux a := by
      rw [show tokAux (a ++ ['"', '"'])
          = List.foldl tokStep (tokAux a) ['"', '"'] from List.foldl_append ..]
      exact tokStep_dquote (tokAux a)
    have e3 : tokAux ((a ++ ['"', '"']) ++ b) = tokAux (a ++ b) := by
      rw [show tokAux ((a ++ ['"', '"']) ++ b)
            = List.foldl tokStep (tokAux (a ++ ['"', '"'])) b from List.foldl_append ..,
        e2,
        show tokAux (a ++ b) = List.foldl tokStep (tokAux a) b from List.foldl_append ..]
    unfold tokenizeLine
    rw [show a ++ '"' :: '"' :: b = (a ++ ['"', '"']) ++ b by simp, e3]
  · intro a b hq hb
    have hquote : tokStep (tokAux a) '"' = ⟨(tokAux a).fields, (tokAux a).current, true⟩ := by
      unfold tokStep
      rw [if_pos rfl, hq]
      rfl
    have e1 : tokAux (a ++ ['"']) = ⟨(tokAux a).fields, (tokAux a).current, true⟩ := by
      rw [show tokAux (a ++ ['"'])
          = List.foldl tokStep (tokAux a) ['"'] from List.foldl_append ..]
      exact hquote
    have e2 : tokAux ((a ++ ['"']) ++ b)
        = ⟨(tokAux a).fields, (tokAux a).current ++ b, true⟩ := by
      rw [show tokAux ((a ++ ['"']) ++ b)
            = List.foldl tokStep (tokAux (a ++ ['"'])) b from List.foldl_append ..,
        e1, tokFold_absorb b _ _ hb]
    unfold tokenizeLine
    rw [show a ++ '"' :: b = (a ++ ['"']) ++ b by simp, e2]

/-- C10 witness: quote erasure, the inert double-quote escape and
unbalanced-quote absorption evaluated on concrete lines. -/
theorem tokenizer_quote_erasure_witness :
    ('"' ∉ "he said".data) ∧
    tokenizeLine ("a,\"".data ++ '"' :: '"' :: "b\",c".data)
      = tokenizeLine ("a,\"".data ++ "b\",c".data) ∧
    tokenizeLine ("a,".data ++ '"' :: "b,c d".data)
      = (tokAux "a,".data).fields ++ [trimChars ((tokAux "a,".data).current ++ "b,c d".data)] :=
  ⟨tokenizer_quote_erasure_ok.1 ("x,\"he said\",y".data) "he said".data (by decide),
   tokenizer_quote_erasure_ok.2.1 "a,\"".data "b\",c".data,
   tokenizer_quote_erasure_ok.2.2 "a,".data "b,c d".data (by decide) (by decide)⟩

/-- Wellformedness of an item, spelled out. -/
theorem wfItem_iff (it : InventoryItem) :
    wfItem it = true ↔ it.variants ≠ [] ∧ (it.variants.map (·.id)).Nodup := by
  unfold wfItem
  simp [List.isEmpty_iff]

/-- Wellformedness of an item list, spelled out. -/
theorem wfItems_iff (items : List InventoryItem) :
    wfItems items = true ↔ ∀ it ∈ items, wfItem it = true := by
  unfold wfItems
  exact List.all_eq_true

/-- Wellformedness only looks at the variant list. -/
theorem wfItem_set_variants (it : InventoryItem) (X : List SizeVariant)
    (h1 : X ≠ []) (h2 : (X.map (·.id)).Nodup) :
    wfItem { it with variants := X } = true := by
  rw [wfItem_iff]
  exact ⟨h1, h2⟩

/-- A variant map that preserves identifiers preserves wellformedness. -/
theorem wfItem_map_variants (it : InventoryItem) (g : SizeVariant → SizeVariant)
    (hg : ∀ v ∈ it.variants, (g v).id = v.id) (h : wfItem it = true) :
    wfItem { it with variants := it.variants.map g } = true := by
  rw [wfItem_iff] at h
  apply wfItem_set_variants
  · rw [Ne, List.map_eq_nil_iff]
    exact h.1
  · have he : (it.variants.map g).map (·.id) = it.variants.map (·.id) := by
      rw [List.map_map]
      exact List.map_congr_left (fun v hv => hg v hv)
    rw [he]
    exact h.2

/-- Two or more variants with distinct identifiers survive the deletion
filter: at least one variant remains. -/
theorem filter_ne_nil_of_nodup (l : List SizeVariant) (vid : Nat)
    (hlen : 2 ≤ l.length) (hnd : (l.map (·.id)).Nodup) :
    l.filter (fun v => v.id != vid) ≠ [] := by
  intro hnil
  rw [List.filter_eq_nil_iff] at hnil
  cases l with
  | nil => simp at hlen
  | cons v1 t =>
    cases t with
    | nil => simp at hlen
    | cons v2 rest =>
      have h1 : v1.id = vid := by
        have := hnil v1 (by simp)
        simpa using this
      have h2 : v2.id = vid := by
        have := hnil v2 (by simp)
        simpa using this
      rw [List.map_cons, List.map_cons, List.nodup_cons] at hnd
      exact hnd.1 (by rw [h1, h2]; exact List.mem_cons_self _ _)

/-- Items built from wellformed parsed items are wellformed. -/
theorem assignIds_wf (ps : List ParsedItem) :
    ∀ n, ps.all wfParsed = true → wfItems (assignIds n ps) = true := by
  induction ps with
  | nil => intro n _; rfl
  | cons p rest ih =>
    intro n hall
    rw [List.all_cons, Bool.and_eq_true] at hall
    rw [wfItems_iff]
    intro it hit
    rcases List.mem_cons.mp hit with hl | hr
    · subst hl
      exact hall.1
    · exact (wfItems_iff _).mp (ih (n + 1) hall.2) it hr

/-- Every public mutation, applied in a state it is valid for, preserves
wellformedness of all items. -/
theorem applyOp_wf (s : ItemsState) (op : Op) (hwf : wfItems s.1 = true)
    (hok : opOK s op = true) : wfItems (applyOp s op).1 = true := by
  have hwf' := (wfItems_iff _).mp hwf
  cases op with
  | addItem d =>
    rw [wfItems_iff]
    intro it hit
    rcases List.mem_append.mp hit with hl | hr
    · exact hwf' it hl
    · rw [List.mem_singleton] at hr
      subst hr
      exact hok
  | editItem editingId d =>
    rw [wfItems_iff]
    intro it' hit'
    obtain ⟨it, hit, rfl⟩ := List.mem_map.mp hit'
    by_cases hid : it.id = editingId
    · rw [if_pos hid]
      exact hok
    · rw [if_neg hid]
      exact hwf' it hit
  | deleteItem id =>
    rw [wfItems_iff]
    intro it hit
    exact hwf' it (List.mem_of_mem_filter hit)
  | csvImport text =>
    cases hp : parseCSV text with
    | error e =>
      show wfItems (applyOp s (.csvImport text)).1 = true
      simp only [applyOp, hp]
      exact hwf
    | ok parsed =>
      show wfItems (applyOp s (.csvImport text)).1 = true
      simp only [applyOp, hp]
      simp only [opOK, hp] at hok
      cases hemp : parsed.isEmpty with
      | true =>
        rw [if_pos rfl]
        exact hwf
      | false =>
        rw [if_neg (by simp)]
        show wfItems (handleCSVImport s.1 parsed s.2) = true
        unfold handleCSVImport
        rw [wfItems_iff]
        intro it hit
        rcases List.mem_append.mp hit with hl | hr
        · exact hwf' it hl
        · exact (wfItems_iff _).mp (assignIds_wf parsed s.2 hok) it hr
  | addVariant itemId size =>
    rw [wfItems_iff]
    intro it' hit'
    obtain ⟨it, hit, rfl⟩ := List.mem_map.mp hit'
    by_cases hid : it.id = itemId
    · rw [if_pos hid]
      have hw := (wfItem_iff _).mp (hwf' it hit)
      apply wfItem_set_variants
      · simp
      · rw [List.map_append]
        rw [List.nodup_append]
        refine ⟨hw.2, List.nodup_singleton _, ?_⟩
        intro x hx hx'
        rw [List.map_singleton, List.mem_singleton] at hx'
        subst hx'
        simp only [opOK, List.all_eq_true] at hok
        have := hok it hit
        rw [Bool.or_eq_true] at this
        rcases this with hc | hc
        · simp [hid] at hc
        · rw [Bool.not_eq_true'] at hc
          have hmem : (it.variants.map (·.id)).contains s.2 = true := List.elem_iff.mpr hx
          rw [hmem] at hc
          cases hc
    · rw [if_neg hid]
      exact hwf' it hit
  | deleteVariant itemId vid =>
    rw [wfItems_iff]
    intro it' hit'
    obtain ⟨it, hit, rfl⟩ := List.mem_map.mp hit'
    by_cases hid : it.id = itemId
    · rw [if_pos hid]
      by_cases hlen : it.variants.length ≤ 1
      · rw [if_pos hlen]
        exact hwf' it hit
      · rw [if_neg hlen]
        have hw := (wfItem_iff _).mp (hwf' it hit)
        apply wfItem_set_variants
        · exact filter_ne_nil_of_nodup it.variants vid (by omega) hw.2
        · exact ((List.filter_sublist it.variants).map (·.id)).nodup hw.2
    · rw [if_neg hid]
      exact hwf' it hit
  | updateQuantity itemId vid q =>
    rw [wfItems_iff]
    intro it' hit'
    obtain ⟨it, hit, rfl⟩ := List.mem_map.mp hit'
    by_cases hid : it.id = itemId
    · rw [if_pos hid]
      apply wfItem_map_variants
      · intro v _
        by_cases hv : v.id = vid
        · rw [if_pos hv]
        · rw [if_neg hv]
      · exact hwf' it hit
    · rw [if_neg hid]
      exact hwf' it hit
  | updateLocation itemId vid loc =>
    rw [wfItems_iff]
    intro it' hit'
    obtain ⟨it, hit, rfl⟩ := List.mem_map.mp hit'
    by_cases hid : it.id = itemId
    · rw [if_pos hid]
      apply wfItem_map_variants
      · intro v _
        by_cases hv : v.id = vid
        · rw [if_pos hv]
        · rw [if_neg hv]
      · exact hwf' it hit
    · rw [if_neg hid]
      exact hwf' it hit
  | updateSKU itemId sku =>
    rw [wfItems_iff]
    intro it' hit'
    obtain ⟨it, hit, rfl⟩ := List.mem_map.mp hit'
    by_cases hid : it.id = itemId
    · rw [if_pos hid]
      exact hwf' it hit
    · rw [if_neg hid]
      exact hwf' it hit
  | updateTitle itemId t =>
    rw [wfItems_iff]
    intro it' hit'
    obtain ⟨it, hit, rfl⟩ := List.mem_map.mp hit'
    by_cases hid : it.id = itemId
    · rw [if_pos hid]
      exact hwf' it hit
    · rw [if_neg hid]
      exact hwf' it hit

/-- C1 counterexample: a CSV import whose data row resolves to seven
fields but carries an empty SIZE list succeeds (no error is reported) and
creates an inventory item with zero variants, so an item does not retain
at least one variant under every creation path. -/
theorem variant_floor_cex :
    (handleImport emptySizeText [] 0).2 = none ∧
    ∃ it ∈ (handleImport emptySizeText [] 0).1, it.variants = [] := by
  exact ⟨by rfl, by decide⟩

/-- C1 (amended): assuming the identifier uniqueness the specification
demands of synthesized variant ids, every sequence of valid public
mutations — form submissions carrying at least one variant, imports whose
items all carry at least one variant — keeps every item at one variant or
more, and a delete-variant call targeting items that hold at most one
variant is rejected with the item list returned unchanged.  (Without
the proviso on imports the property fails: see the counterexample, where
an imported row with an empty SIZE list creates a zero-variant item.) -/
theorem variant_floor_ok :
    (∀ (s : ItemsState) (ops : List Op), wfItems s.1 = true → opsOK s ops = true →
        wfItems (applyOps s ops).1 = true) ∧
    (∀ (items : List InventoryItem) (itemId variantId : Nat),
        (∀ it ∈ items, it.id = itemId → it.variants.length ≤ 1) →
        handleDeleteVariant items itemId variantId = items) := by
  constructor
  · intro s ops
    induction ops generalizing s with
    | nil => intro hwf _; exact hwf
    | cons op rest ih =>
      intro hwf hok
      rw [show opsOK s (op :: rest) = (opOK s op && opsOK (applyOp s op) rest) from rfl,
        Bool.and_eq_true] at hok
      exact ih (applyOp s op) (applyOp_wf s op hwf hok.1) hok.2
  · intro items itemId variantId h
    unfold handleDeleteVariant
    have hpt : ∀ it ∈ items,
        (if it.id = itemId then
          if it.variants.length ≤ 1 then it
          else { it with variants := it.variants.filter fun v => v.id != variantId }
        else it) = it := by
      intro it hit
      by_cases hid : it.id = itemId
      · rw [if_pos hid, if_pos (h it hit hid)]
      · rw [if_neg hid]
    calc items.map _ = items.map id := List.map_congr_left hpt
      _ = items := List.map_id items

/-- C1 witness: a mixed sequence of valid mutations — a CSV import, a
variant addition, a variant deletion, a clamped quantity update and a SKU
edit — keeps every item wellformed, and a deletion aimed at a single
variant item leaves the item list unchanged. -/
theorem variant_floor_witness :
    wfItems (applyOps (cleanSampleItems, 10)
      [Op.csvImport mergeExampleText, Op.addVariant 0 "S".data,
       Op.deleteVariant 0 1, Op.updateQuantity 0 2 (-7),
       Op.updateSKU 0 "Z9".data]).1 = true ∧
    handleDeleteVariant commaSizeItems 0 1 = commaSizeItems :=
  ⟨variant_floor_ok.1 (cleanSampleItems, 10)
      [Op.csvImport mergeExampleText, Op.addVariant 0 "S".data,
       Op.deleteVariant 0 1, Op.updateQuantity 0 2 (-7),
       Op.updateSKU 0 "Z9".data] (by decide) (by decide),
   variant_floor_ok.2 commaSizeItems 0 1 (by decide)⟩

/-- C3 counterexample: exporting a single item whose variant size
contains the delimiter (size `M,L`, quantity 1, location `R1`, in stock)
produces an unquoted row that re-imports as a different record — size
`M`, quantity 0, location `1`, out of stock — so the reconstructed
(sku, size, quantity, location, stock) tuples differ from the
original's. -/
theorem merge_roundtrip_cex :
    parseCSV (exportCSV commaSizeItems)
      = .ok [⟨"A".data, "T".data, some "R1".data,
          [⟨0, "M".data, false, 0, "1".data⟩]⟩] ∧
    ¬ (ptuples [⟨"A".data, "T".data, some "R1".data,
          [⟨0, "M".data, false, 0, "1".data⟩]⟩]).Perm (ituples commaSizeItems) := by
  exact ⟨by rfl, by decide⟩

/-! ### Helper lemmas for the amended round trip -/

/-- A list with no whitespace characters loses nothing to `dropWhile`. -/
theorem dropWhile_eq_self_of_no_ws (l : Str) (h : ∀ c ∈ l, isWS c = false) :
    l.dropWhile isWS = l := by
  cases l with
  | nil => rfl
  | cons c rest =>
    rw [List.dropWhile_cons, if_neg]
    rw [h c (List.mem_cons_self c rest)]
    simp

/-- A list with no whitespace characters is its own trim. -/
theorem trimChars_of_no_ws (l : Str) (h : ∀ c ∈ l, isWS c = false) :
    trimChars l = l := by
  unfold trimChars
  rw [dropWhile_eq_self_of_no_ws l h, dropWhile_eq_self_of_no_ws, List.reverse_reverse]
  intro c hc
  exact h c (List.mem_reverse.mp hc)

/-- A non-whitespace member survives `dropWhile`. -/
theorem mem_dropWhile_of_mem (l : Str) (c : Char) (hc : c ∈ l) (hw : isWS c = false) :
    c ∈ l.dropWhile isWS := by
  induction l with
  | nil => cases hc
  | cons x rest ih =>
    rw [List.dropWhile_cons]
    by_cases hx : isWS x = true
    · rw [if_pos hx]
      rcases List.mem_cons.mp hc with he | hm
      · subst he
        rw [hx] at hw
        cases hw
      · exact ih hm
    · rw [if_neg hx]
      exact hc

/-- A non-whitespace member survives trimming. -/
theorem mem_trimChars_of_mem (l : Str) (c : Char) (hc : c ∈ l) (hw : isWS c = false) :
    c ∈ trimChars l := by
  unfold trimChars
  rw [List.mem_reverse]
  apply mem_dropWhile_of_mem
  · rw [List.mem_reverse]
    exact mem_dropWhile_of_mem l c hc hw
  · exact hw

/-- A string holding a non-whitespace character does not trim to
nothing. -/
theorem trimChars_ne_nil_of_mem (l : Str) (c : Char) (hc : c ∈ l) (hw : isWS c = false) :
    trimChars l ≠ [] := by
  intro h
  rw [← List.mem_reverse] at hc
  have := mem_trimChars_of_mem l c (List.mem_reverse.mp hc) hw
  rw [h] at this
  cases this

/-- Splitting never produces an empty piece list. -/
theorem splitChar_ne_nil (c : Char) (l : Str) : splitChar c l ≠ [] := by
  cases l with
  | nil => simp [splitChar]
  | cons ch rest =>
    unfold splitChar
    cases splitChar c rest with
    | nil => simp
    | cons f fs =>
      by_cases h : ch = c <;> simp [h]

/-- Splitting a string beginning with the separator yields a leading
empty piece. -/
theorem splitChar_cons_self (c : Char) (l : Str) :
    splitChar c (c :: l) = [] :: splitChar c l := by
  cases h : splitChar c l with
  | nil => exact absurd h (splitChar_ne_nil c l)
  | cons f fs =>
    simp only [splitChar]
    rw [h]
    simp

/-- Splitting after a separator-free prefix extends the first piece. -/
theorem splitChar_append_of_notMem (c : Char) (r l : Str) (hr : c ∉ r) :
    ∀ f fs, splitChar c l = f :: fs → splitChar c (r ++ l) = (r ++ f) :: fs := by
  induction r with
  | nil =>
    intro f fs h
    simpa using h
  | cons ch rest ih =>
    intro f fs h
    have hch : ¬ch = c := fun he => hr (he ▸ List.mem_cons_self ch rest)
    have hrest : c ∉ rest := fun hm => hr (List.mem_cons_of_mem ch hm)
    rw [List.cons_append]
    unfold splitChar
    rw [ih hrest f fs h]
    simp [hch]

/-- A separator-free string splits to itself. -/
theorem splitChar_of_notMem (c : Char) (l : Str) (h : c ∉ l) :
    splitChar c l = [l] := by
  have := splitChar_append_of_notMem c l [] h [] [] rfl
  simpa using this

/-- Joining then splitting recovers separator-free pieces. -/
theorem splitChar_joinChar (c : Char) (rows : List Str) (hne : rows ≠ [])
    (hfree : ∀ r ∈ rows, c ∉ r) : splitChar c (joinChar c rows) = rows := by
  induction rows with
  | nil => exact absurd rfl hne
  | cons r rest ih =>
    cases rest with
    | nil =>
      show splitChar c r = [r]
      exact splitChar_of_notMem c r (hfree r (List.mem_cons_self r []))
    | cons r2 rest2 =>
      have hr : c ∉ r := hfree r (List.mem_cons_self r _)
      have hrest : ∀ x ∈ r2 :: rest2, c ∉ x := fun x hx =>
        hfree x (List.mem_cons_of_mem r hx)
      have hjoin : joinChar c (r :: r2 :: rest2) = r ++ c :: joinChar c (r2 :: rest2) := rfl
      rw [hjoin]
      have htail : splitChar c (c :: joinChar c (r2 :: rest2))
          = [] :: splitChar c (joinChar c (r2 :: rest2)) := splitChar_cons_self c _
      rw [ih (by simp) hrest] at htail
      rw [splitChar_append_of_notMem c r _ hr [] (r2 :: rest2) htail]
      simp

/-- Members of a join come from the pieces or are the separator. -/
theorem mem_joinChar (c : Char) (rows : List Str) (x : Char)
    (hx : x ∈ joinChar c rows) : x = c ∨ ∃ r ∈ rows, x ∈ r := by
  induction rows with
  | nil => cases hx
  | cons r rest ih =>
    cases rest with
    | nil =>
      exact Or.inr ⟨r, List.mem_cons_self r [], hx⟩
    | cons r2 rest2 =>
      have : x ∈ r ++ c :: joinChar c (r2 :: rest2) := hx
      rcases List.mem_append.mp this with h1 | h2
      · exact Or.inr ⟨r, List.mem_cons_self r _, h1⟩
      · rcases List.mem_cons.mp h2 with he | hm
        · exact Or.inl he
        · rcases ih hm with hc | ⟨r', hr', hx'⟩
          · exact Or.inl hc
          · exact Or.inr ⟨r', List.mem_cons_of_mem r hr', hx'⟩

/-- Digit characters produced by `digitChar`. -/
theorem digitChar_mem (d : Nat) : digitChar d ∈ digitChars := by
  unfold digitChar
  split <;> decide

/-- Character classification of the ten digit characters. -/
theorem digitChars_facts : ∀ c ∈ digitChars, c.isDigit = true ∧ isWS c = false ∧
    c ≠ ',' ∧ c ≠ '"' ∧ c ≠ '\n' ∧ c ≠ '-' ∧ c ≠ '+' := by decide

/-- Decimal digits of a natural number are digit characters. -/
theorem natToStrAux_mem (fuel : Nat) :
    ∀ n, n < fuel → ∀ c ∈ natToStrAux fuel n, c ∈ digitChars := by
  induction fuel with
  | zero => omega
  | succ fuel ih =>
    intro n h c hc
    unfold natToStrAux at hc
    by_cases h10 : n < 10
    · rw [if_pos h10, List.mem_singleton] at hc
      subst hc
      exact digitChar_mem n
    · rw [if_neg h10] at hc
      rcases List.mem_append.mp hc with h1 | h2
      · exact ih (n / 10) (by omega) c h1
      · rw [List.mem_singleton] at h2
        subst h2
        exact digitChar_mem (n % 10)

/-- The decimal rendering is never empty. -/
theorem natToStrAux_ne_nil (fuel n : Nat) (h : n < fuel) : natToStrAux fuel n ≠ [] := by
  cases fuel with
  | zero => omega
  | succ fuel =>
    unfold natToStrAux
    by_cases h10 : n < 10
    · rw [if_pos h10]
      simp
    · rw [if_neg h10]
      simp

/-- Appending a digit multiplies the run value by ten. -/
theorem digitsVal_append (l : Str) (c : Char) :
    digitsVal (l ++ [c]) = 10 * digitsVal l + digitVal c := by
  unfold digitsVal
  rw [List.foldl_append]
  rfl

/-- Value of a digit character below ten. -/
theorem digitVal_digitChar (d : Nat) (h : d < 10) : digitVal (digitChar d) = d := by
  interval_cases d <;> decide

/-- The decimal rendering evaluates back to the number. -/
theorem digitsVal_natToStrAux (fuel : Nat) :
    ∀ n, n < fuel → digitsVal (natToStrAux fuel n) = n := by
  induction fuel with
  | zero => omega
  | succ fuel ih =>
    intro n h
    unfold natToStrAux
    by_cases h10 : n < 10
    · rw [if_pos h10]
      rw [show digitsVal [digitChar n] = 10 * 0 + digitVal (digitChar n) from rfl,
        digitVal_digitChar n h10]
      omega
    · rw [if_neg h10]
      have hdiv : n / 10 < n := Nat.div_lt_self (by omega) (by omega)
      rw [digitsVal_append, ih (n / 10) (by omega), digitVal_digitChar (n % 10) (by omega)]
      omega

/-- The three facts about `natToStr` the parser needs. -/
theorem natToStr_facts (n : Nat) :
    (∀ c ∈ natToStr n, c ∈ digitChars) ∧ natToStr n ≠ [] ∧
      digitsVal (natToStr n) = n :=
  ⟨natToStrAux_mem (n + 1) n (Nat.lt_succ_self n),
   natToStrAux_ne_nil (n + 1) n (Nat.lt_succ_self n),
   digitsVal_natToStrAux (n + 1) n (Nat.lt_succ_self n)⟩

/-- A run of predicate-satisfying characters is its own `takeWhile`. -/
theorem takeWhile_eq_self_of_all (l : Str) (p : Char → Bool) (h : ∀ c ∈ l, p c = true) :
    l.takeWhile p = l := by
  induction l with
  | nil => rfl
  | cons c rest ih =>
    rw [List.takeWhile_cons, h c (List.mem_cons_self c rest)]
    simp [ih (fun x hx => h x (List.mem_cons_of_mem c hx))]

/-- An all-digit run parses to its digit value. -/
theorem parseDigits_all (l : Str) (hne : l ≠ []) (h : ∀ c ∈ l, c.isDigit = true) :
    parseDigits l = some (digitsVal l) := by
  show (if (l.takeWhile Char.isDigit).isEmpty then none
    else some (digitsVal (l.takeWhile Char.isDigit))) = some (digitsVal l)
  rw [takeWhile_eq_self_of_all l Char.isDigit h, if_neg (by simpa using hne)]

/-- JS `parseInt` inverts the printing of a nonnegative number. -/
theorem parseIntJS_natToStr (n : Nat) : parseIntJS (natToStr n) = some (n : Int) := by
  obtain ⟨hmem, hne, hval⟩ := natToStr_facts n
  have hnws : ∀ c ∈ natToStr n, isWS c = false := fun c hc =>
    (digitChars_facts c (hmem c hc)).2.1
  unfold parseIntJS
  rw [dropWhile_eq_self_of_no_ws _ hnws]
  cases hcons : natToStr n with
  | nil => exact absurd hcons hne
  | cons c rest =>
    have hcd := digitChars_facts c (hmem c (hcons ▸ List.mem_cons_self c rest))
    simp only [parseIntBody]
    rw [if_neg hcd.2.2.2.2.2.1, if_neg hcd.2.2.2.2.2.2]
    rw [parseDigits_all (c :: rest) (by simp)
      (fun x hx => (digitChars_facts x (hmem x (hcons ▸ hx))).1)]
    rw [← hcons, hval]

/-- JS `parseInt` inverts the printing of any integral number. -/
theorem parseIntJS_intToStr (q : Int) : parseIntJS (intToStr q) = some q := by
  cases q with
  | ofNat n => exact parseIntJS_natToStr n
  | negSucc n =>
    show parseIntJS ('-' :: natToStr (n + 1)) = some (Int.negSucc n)
    obtain ⟨hmem, hne, hval⟩ := natToStr_facts (n + 1)
    unfold parseIntJS
    rw [show ('-' :: natToStr (n + 1)).dropWhile isWS = '-' :: natToStr (n + 1) by
      rw [List.dropWhile_cons, show isWS '-' = false from rfl]
      simp]
    simp only [parseIntBody]
    rw [if_pos trivial]
    rw [parseDigits_all _ hne (fun x hx => (digitChars_facts x (hmem x hx)).1), hval]
    show some (-(((n + 1 : Nat)) : Int)) = some (Int.negSucc n)
    simp [Int.negSucc_eq]

/-- Spelling out a clean field. -/
theorem cleanField_iff (f : Str) : cleanField f = true ↔
    trimChars f = f ∧ ',' ∉ f ∧ '"' ∉ f ∧ '\n' ∉ f := by
  unfold cleanField
  simp [List.elem_iff]
  tauto

/-- A clean field is its own trim. -/
theorem cleanField_trim (f : Str) (h : cleanField f = true) : trimChars f = f :=
  ((cleanField_iff f).mp h).1

/-- A clean field holds neither quote nor delimiter. -/
theorem cleanField_chars (f : Str) (h : cleanField f = true) :
    ∀ ch ∈ f, ch ≠ '"' ∧ ch ≠ ',' := by
  obtain ⟨-, hc, hq, -⟩ := (cleanField_iff f).mp h
  intro ch hch
  exact ⟨fun he => hq (he ▸ hch), fun he => hc (he ▸ hch)⟩

/-- A clean field holds no newline. -/
theorem cleanField_no_nl (f : Str) (h : cleanField f = true) : '\n' ∉ f :=
  ((cleanField_iff f).mp h).2.2.2

/-- Boolean renderings are clean fields. -/
theorem boolStr_clean (b : Bool) : cleanField (boolStr b) = true := by
  cases b <;> decide

/-- Characters of an integral rendering: a minus sign or a digit. -/
theorem intToStr_mem (q : Int) : ∀ ch ∈ intToStr q, ch ∈ '-' :: digitChars := by
  cases q with
  | ofNat n =>
    intro ch hch
    exact List.mem_cons_of_mem _ ((natToStr_facts n).1 ch hch)
  | negSucc n =>
    intro ch hch
    rcases List.mem_cons.mp hch with he | hm
    · exact he ▸ List.mem_cons_self _ _
    · exact List.mem_cons_of_mem _ ((natToStr_facts (n + 1)).1 ch hm)

/-- Character classification of sign and digit characters. -/
theorem signDigit_facts : ∀ c ∈ '-' :: digitChars, isWS c = false ∧
    c ≠ '"' ∧ c ≠ ',' ∧ c ≠ '\n' := by decide

/-- Integral renderings are their own trim. -/
theorem intToStr_trim (q : Int) : trimChars (intToStr q) = intToStr q :=
  trimChars_of_no_ws _ (fun c hc => (signDigit_facts c (intToStr_mem q c hc)).1)

/-- The tokenizer copies a quote- and delimiter-free field verbatim. -/
theorem tokFold_plain (f : Str) (hf : ∀ ch ∈ f, ch ≠ '"' ∧ ch ≠ ',') :
    ∀ (fs : List Str) (cur : Str),
      List.foldl tokStep ⟨fs, cur, false⟩ f = ⟨fs, cur ++ f, false⟩ := by
  induction f with
  | nil =>
    intro fs cur
    simp
  | cons ch rest ih =>
    intro fs cur
    have hch := hf ch (List.mem_cons_self ch rest)
    rw [List.foldl_cons]
    rw [show tokStep ⟨fs, cur, false⟩ ch = ⟨fs, cur ++ [ch], false⟩ by
      unfold tokStep
      rw [if_neg hch.1, if_neg (by simp [hch.2])]]
    rw [ih (fun x hx => hf x (List.mem_cons_of_mem ch hx)) fs (cur ++ [ch])]
    simp

/-- Tokenizing a join of clean fields recovers the trimmed fields,
whatever fields were already emitted. -/
theorem tokenize_join_aux (fields : List Str) (hne : fields ≠ [])
    (hcl : ∀ f ∈ fields, ∀ ch ∈ f, ch ≠ '"' ∧ ch ≠ ',') :
    ∀ acc : List Str,
      (List.foldl tokStep ⟨acc, [], false⟩ (joinChar ',' fields)).fields
          ++ [trimChars (List.foldl tokStep ⟨acc, [], false⟩ (joinChar ',' fields)).current]
        = acc ++ fields.map trimChars := by
  induction fields with
  | nil => exact absurd rfl hne
  | cons f rest ih =>
    intro acc
    cases rest with
    | nil =>
      show (List.foldl tokStep ⟨acc, [], false⟩ f).fields
          ++ [trimChars (List.foldl tokStep ⟨acc, [], false⟩ f).current]
        = acc ++ [f].map trimChars
      rw [tokFold_plain f (hcl f (List.mem_cons_self f [])) acc []]
      simp
    | cons g rest2 =>
      have hjoin : joinChar ',' (f :: g :: rest2) = f ++ ',' :: joinChar ',' (g :: rest2) := rfl
      rw [hjoin, List.foldl_append,
        tokFold_plain f (hcl f (List.mem_cons_self f _)) acc [], List.foldl_cons]
      rw [show tokStep ⟨acc, [] ++ f, false⟩ ',' = ⟨acc ++ [trimChars ([] ++ f)], [], false⟩ by
        unfold tokStep
        rw [if_neg (by decide), if_pos ⟨rfl, rfl⟩]]
      rw [ih (by simp) (fun x hx => hcl x (List.mem_cons_of_mem f hx))
        (acc ++ [trimChars ([] ++ f)])]
      simp

/-- Tokenizing a join of clean fields recovers the trimmed fields. -/
theorem tokenize_join (fields : List Str) (hne : fields ≠ [])
    (hcl : ∀ f ∈ fields, ∀ ch ∈ f, ch ≠ '"' ∧ ch ≠ ',') :
    tokenizeLine (joinChar ',' fields) = fields.map trimChars := by
  have h := tokenize_join_aux fields hne hcl []
  simpa [tokenizeLine, tokAux] using h

/-- A found entry is an entry of the map. -/
theorem findEntry_mem (m : List (Str × ParsedItem)) (k : Str) (v : ParsedItem)
    (h : findEntry m k = some v) : (k, v) ∈ m := by
  induction m with
  | nil => cases h
  | cons e rest ih =>
    obtain ⟨k', v'⟩ := e
    unfold findEntry at h
    by_cases hk : k' = k
    · rw [if_pos hk] at h
      obtain rfl : v' = v := Option.some.inj h
      subst hk
      exact List.mem_cons_self _ _
    · rw [if_neg hk] at h
      exact List.mem_cons_of_mem _ (ih h)

/-- Tuple content of a one-entry extension of the map. -/
theorem mapTuples_cons (e : Str × ParsedItem) (m : List (Str × ParsedItem)) :
    mapTuples (e :: m) = ↑(itemTuples e.2) + mapTuples m := rfl

/-- Tuple content of appending a fresh entry. -/
theorem mapTuples_append_single (m : List (Str × ParsedItem)) (k : Str) (item : ParsedItem) :
    mapTuples (m ++ [(k, item)]) = mapTuples m + ↑(itemTuples item) := by
  induction m with
  | nil =>
    rw [List.nil_append, mapTuples_cons]
    exact add_comm _ _
  | cons e rest ih =>
    rw [List.cons_append, mapTuples_cons, mapTuples_cons, ih]
    exact (add_assoc _ _ _).symm

/-- Appending variants to the found entry adds exactly their tuples. -/
theorem mapTuples_mapUpdate (m : List (Str × ParsedItem)) (k : Str)
    (vs : List SizeVariant) (p : ParsedItem) (h : findEntry m k = some p) :
    mapTuples (mapUpdate m k (fun item => { item with variants := item.variants ++ vs }))
      = mapTuples m + ↑(vs.map (pTuple p.sku)) := by
  induction m with
  | nil => cases h
  | cons e rest ih =>
    obtain ⟨k', v'⟩ := e
    unfold findEntry at h
    unfold mapUpdate
    by_cases hk : k' = k
    · rw [if_pos hk] at h ⊢
      have hpv : v' = p := Option.some.inj h
      subst hpv
      rw [mapTuples_cons, mapTuples_cons]
      have hit : itemTuples { v' with variants := v'.variants ++ vs }
          = itemTuples v' ++ vs.map (pTuple v'.sku) := by
        unfold itemTuples
        exact List.map_append _ _ _
      rw [hit]
      show (↑(itemTuples v') + ↑(vs.map (pTuple v'.sku))) + mapTuples rest
        = (↑(itemTuples v') + mapTuples rest) + ↑(vs.map (pTuple v'.sku))
      exact add_right_comm _ _ _
    · rw [if_neg hk] at h ⊢
      rw [mapTuples_cons, mapTuples_cons, ih h]
      exact (add_assoc _ _ _).symm

/-- The SKU invariant survives a variant-appending update. -/
theorem mapUpdate_MapInv (m : List (Str × ParsedItem)) (k : Str)
    (f : ParsedItem → ParsedItem) (hf : ∀ item, (f item).sku = item.sku)
    (hinv : MapInv m) : MapInv (mapUpdate m k f) := by
  induction m with
  | nil => intro e he; cases he
  | cons e rest ih =>
    obtain ⟨k', v'⟩ := e
    have hrest : MapInv rest := fun e2 he2 => hinv e2 (List.mem_cons_of_mem _ he2)
    unfold mapUpdate
    by_cases hk : k' = k
    · rw [if_pos hk]
      intro e' he'
      rcases List.mem_cons.mp he' with rfl | hm
      · show (f v').sku = k'
        rw [hf v']
        exact hinv (k', v') (List.mem_cons_self _ _)
      · exact hinv e' (List.mem_cons_of_mem _ hm)
    · rw [if_neg hk]
      intro e' he'
      rcases List.mem_cons.mp he' with rfl | hm
      · exact hinv (k', v') (List.mem_cons_self _ _)
      · exact ih hrest e' hm

/-- The SKU invariant survives appending a key-consistent entry. -/
theorem append_MapInv (m : List (Str × ParsedItem)) (k : Str) (item : ParsedItem)
    (hitem : item.sku = k) (hinv : MapInv m) : MapInv (m ++ [(k, item)]) := by
  intro e he
  rcases List.mem_append.mp he with hm | hs
  · exact hinv e hm
  · rw [List.mem_singleton] at hs
    subst hs
    exact hitem

/-- Explicit form of row processing once the tokenized fields are
known. -/
theorem processLine_eq_of_fields (st : ParseState) (line : Str)
    (f0 f1 f2 f3 f4 f5 f6 : Str)
    (h : tokenizeLine line = [f0, f1, f2, f3, f4, f5, f6]) :
    processLine st line =
      match findEntry st.itemsMap (trimChars f0) with
      | some _ =>
        { itemsMap := (mapUpdate st.itemsMap (trimChars f0) (fun item =>
            { item with variants := (item.variants ++
                mkVariants (((splitChar ',' f2).map trimChars).filter (fun s => !s.isEmpty))
                  (decide (toLowerStr f3 = "true".data) || decide (f3 = "1".data))
                  ((parseIntJS f4).getD 0) (trimChars f5) st.nextId) }))
          nextId := (st.nextId +
            (((splitChar ',' f2).map trimChars).filter (fun s => !s.isEmpty)).length) }
      | none =>
        { itemsMap := (st.itemsMap ++ [(trimChars f0,
            { sku := trimChars f0
              title := trimChars f1
              imageUrl := (if (trimChars f6).isEmpty then none else some (trimChars f6))
              variants := (mkVariants
                (((splitChar ',' f2).map trimChars).filter (fun s => !s.isEmpty))
                (decide (toLowerStr f3 = "true".data) || decide (f3 = "1".data))
                ((parseIntJS f4).getD 0) (trimChars f5) st.nextId) })])
          nextId := (st.nextId +
            (((splitChar ',' f2).map trimChars).filter (fun s => !s.isEmpty)).length) } := by
  unfold processLine
  rw [h]
  rfl

/-- Processing the export row of a clean (item, variant) pair adds
exactly that pair's tuple to the SKU map and keeps the map's SKU
invariant. -/
theorem processLine_clean (st : ParseState) (it : InventoryItem) (v : SizeVariant)
    (hcl : cleanPair (it, v) = true) (hinv : MapInv st.itemsMap) :
    mapTuples (processLine st (rowOf it v)).itemsMap
        = mapTuples st.itemsMap + {tupOfPair (it, v)} ∧
    MapInv (processLine st (rowOf it v)).itemsMap := by
  simp only [cleanPair, Bool.and_eq_true] at hcl
  obtain ⟨⟨⟨⟨⟨hsku, htitle⟩, himg⟩, hsize⟩, hszne⟩, hloc⟩ := hcl
  have hszne' : v.size ≠ [] := by
    simpa using hszne
  have hfclean : ∀ f ∈ [it.sku, it.title, v.size, boolStr v.inStock,
      intToStr v.quantity, v.location, it.imageUrl.getD []],
      ∀ ch ∈ f, ch ≠ '"' ∧ ch ≠ ',' := by
    intro f hf
    simp only [List.mem_cons, List.not_mem_nil, or_false] at hf
    rcases hf with rfl | rfl | rfl | rfl | rfl | rfl | rfl
    · exact cleanField_chars _ hsku
    · exact cleanField_chars _ htitle
    · exact cleanField_chars _ hsize
    · exact cleanField_chars _ (boolStr_clean v.inStock)
    · exact fun ch hch =>
        ⟨(signDigit_facts ch (intToStr_mem v.quantity ch hch)).2.1,
         (signDigit_facts ch (intToStr_mem v.quantity ch hch)).2.2.1⟩
    · exact cleanField_chars _ hloc
    · exact cleanField_chars _ himg
  have htok : tokenizeLine (rowOf it v)
      = [it.sku, it.title, v.size, boolStr v.inStock,
         intToStr v.quantity, v.location, it.imageUrl.getD []] := by
    have h1 := tokenize_join [it.sku, it.title, v.size, boolStr v.inStock,
      intToStr v.quantity, v.location, it.imageUrl.getD []] (by simp) hfclean
    rw [show rowOf it v = joinChar ',' [it.sku, it.title, v.size, boolStr v.inStock,
      intToStr v.quantity, v.location, it.imageUrl.getD []] from rfl, h1]
    simp only [List.map_cons, List.map_nil]
    rw [cleanField_trim _ hsku, cleanField_trim _ htitle, cleanField_trim _ hsize,
      cleanField_trim _ (boolStr_clean v.inStock), intToStr_trim,
      cleanField_trim _ hloc, cleanField_trim _ himg]
  have heq := processLine_eq_of_fields st (rowOf it v) it.sku it.title v.size
    (boolStr v.inStock) (intToStr v.quantity) v.location (it.imageUrl.getD []) htok
  have hsz : ((splitChar ',' v.size).map trimChars).filter (fun s => !s.isEmpty)
      = [v.size] := by
    rw [splitChar_of_notMem ',' v.size ((cleanField_iff v.size).mp hsize).2.1]
    show ([trimChars v.size].filter fun s => !s.isEmpty) = [v.size]
    rw [cleanField_trim _ hsize]
    simp [hszne']
  have hstock : (decide (toLowerStr (boolStr v.inStock) = "true".data)
      || decide ((boolStr v.inStock) = "1".data)) = v.inStock := by
    cases v.inStock <;> decide
  have hq : (parseIntJS (intToStr v.quantity)).getD 0 = v.quantity := by
    rw [parseIntJS_intToStr]
    rfl
  rw [heq, hsz, hstock, hq, cleanField_trim _ hsku, cleanField_trim _ hloc]
  cases hfind : findEntry st.itemsMap it.sku with
  | some q0 =>
    have hq0 : q0.sku = it.sku := hinv (it.sku, q0) (findEntry_mem _ _ _ hfind)
    constructor
    · rw [show mkVariants [v.size] v.inStock v.quantity v.location st.nextId
          = [⟨st.nextId, v.size, v.inStock, v.quantity, v.location⟩] from rfl]
      rw [mapTuples_mapUpdate st.itemsMap it.sku _ q0 hfind]
      rw [show ([⟨st.nextId, v.size, v.inStock, v.quantity, v.location⟩]
            : List SizeVariant).map (pTuple q0.sku)
          = [(q0.sku, v.size, v.quantity, v.location, v.inStock)] from rfl]
      rw [hq0]
      rfl
    · exact mapUpdate_MapInv st.itemsMap it.sku _ (fun item => rfl) hinv
  | none =>
    constructor
    · rw [mapTuples_append_single]
      rfl
    · exact append_MapInv st.itemsMap it.sku _ rfl hinv

/-- Folding the export rows of clean pairs through the merge adds exactly
the pairs' tuples, preserving the SKU invariant. -/
theorem processRows_tuples (ps : List (InventoryItem × SizeVariant)) :
    (∀ p ∈ ps, cleanPair p = true) →
    ∀ st : ParseState, MapInv st.itemsMap →
      mapTuples (processRows (ps.map rowOfPair) st).itemsMap
          = mapTuples st.itemsMap + ↑(ps.map tupOfPair) ∧
      MapInv (processRows (ps.map rowOfPair) st).itemsMap := by
  induction ps with
  | nil =>
    intro _ st hinv
    refine ⟨?_, hinv⟩
    show mapTuples st.itemsMap = mapTuples st.itemsMap + ↑([] : List Tup)
    simp
  | cons p rest ih =>
    intro hcl st hinv
    have hstep : processRows ((p :: rest).map rowOfPair) st
        = processRows (rest.map rowOfPair) (processLine st (rowOf p.1 p.2)) := rfl
    obtain ⟨hp, hmi⟩ :=
      processLine_clean st p.1 p.2 (hcl p (List.mem_cons_self p rest)) hinv
    obtain ⟨h1, h2⟩ := ih (fun x hx => hcl x (List.mem_cons_of_mem p hx))
      (processLine st (rowOf p.1 p.2)) hmi
    refine ⟨?_, by rw [hstep]; exact h2⟩
    rw [hstep, h1, hp]
    show (mapTuples st.itemsMap + {tupOfPair (p.1, p.2)}) + ↑(rest.map tupOfPair)
        = mapTuples st.itemsMap + ({tupOfPair p} + ↑(rest.map tupOfPair))
    exact add_assoc _ _ _

/-- C3 (amended): for a nonempty export of items whose SKU, title,
image-URL, size and location fields are clean — trim-invariant and free
of delimiter, quote and newline characters — and whose sizes are
nonempty, re-importing the exported text succeeds and reconstructs
exactly the original multiset of (sku, size, quantity, location, stock)
tuples, merged by SKU.  (Outside this fragment the round trip fails,
because the export writes fields unquoted: see the counterexample.) -/
theorem merge_roundtrip_ok (items : List InventoryItem)
    (hne : pairsOf items ≠ [])
    (hcl : ∀ it2 ∈ items, cleanItem it2 = true) :
    ∃ l, parseCSV (exportCSV items) = .ok l ∧
      (↑(ptuples l) : Multiset Tup) = ↑(ituples items) := by
  have hrows : items.flatMap (fun it2 => it2.variants.map (rowOf it2))
      = (pairsOf items).map rowOfPair := by
    unfold pairsOf
    rw [List.map_flatMap]
    simp only [List.map_map]
    rfl
  have htup : ituples items = (pairsOf items).map tupOfPair := by
    unfold ituples pairsOf
    rw [List.map_flatMap]
    simp only [List.map_map]
    rfl
  have hclp : ∀ p ∈ pairsOf items, cleanPair p = true := by
    intro p hp
    unfold pairsOf at hp
    rw [List.mem_flatMap] at hp
    obtain ⟨it2, hit2, hpv⟩ := hp
    rw [List.mem_map] at hpv
    obtain ⟨v, hv, rfl⟩ := hpv
    have hc := hcl it2 hit2
    simp only [cleanItem, Bool.and_eq_true, List.all_eq_true] at hc
    obtain ⟨⟨⟨ha, hb⟩, hcim⟩, hall⟩ := hc
    have hv2 := hall v hv
    simp only [Bool.and_eq_true] at hv2
    obtain ⟨⟨hsz, hszne⟩, hlc⟩ := hv2
    unfold cleanPair
    simp [ha, hb, hcim, hsz, hszne, hlc]
  have hnl : ∀ p ∈ pairsOf items, '\n' ∉ rowOfPair p := by
    intro p hp hmem
    have hcp := hclp p hp
    simp only [cleanPair, Bool.and_eq_true] at hcp
    obtain ⟨⟨⟨⟨⟨h0, h1⟩, h6⟩, h2⟩, -⟩, h5⟩ := hcp
    have hmem' : '\n' ∈ joinChar ',' [p.1.sku, p.1.title, p.2.size,
        boolStr p.2.inStock, intToStr p.2.quantity, p.2.location,
        p.1.imageUrl.getD []] := hmem
    rcases mem_joinChar ',' _ '\n' hmem' with he | ⟨f, hf, hmf⟩
    · exact absurd he (by decide)
    · simp only [List.mem_cons, List.not_mem_nil, or_false] at hf
      rcases hf with rfl | rfl | rfl | rfl | rfl | rfl | rfl
      · exact cleanField_no_nl _ h0 hmf
      · exact cleanField_no_nl _ h1 hmf
      · exact cleanField_no_nl _ h2 hmf
      · exact cleanField_no_nl _ (boolStr_clean p.2.inStock) hmf
      · exact absurd rfl (signDigit_facts '\n' (intToStr_mem p.2.quantity '\n' hmf)).2.2.2
      · exact cleanField_no_nl _ h5 hmf
      · exact cleanField_no_nl _ h6 hmf
  have hsplit : splitChar '\n' (exportCSV items)
      = headerStr :: (pairsOf items).map rowOfPair := by
    unfold exportCSV
    rw [hrows]
    apply splitChar_joinChar
    · simp
    · intro r hr
      rcases List.mem_cons.mp hr with rfl | hm
      · decide
      · obtain ⟨p, hp, rfl⟩ := List.mem_map.mp hm
        exact hnl p hp
  have hfilter : (headerStr :: (pairsOf items).map rowOfPair).filter
        (fun l => !(trimChars l).isEmpty)
      = headerStr :: (pairsOf items).map rowOfPair := by
    apply List.filter_eq_self.mpr
    intro r hr
    rcases List.mem_cons.mp hr with rfl | hm
    · decide
    · obtain ⟨p, hp, rfl⟩ := List.mem_map.mp hm
      have hcm : ',' ∈ rowOfPair p := by
        show ',' ∈ p.1.sku ++ ',' :: joinChar ',' [p.1.title, p.2.size,
          boolStr p.2.inStock, intToStr p.2.quantity, p.2.location,
          p.1.imageUrl.getD []]
        exact List.mem_append.mpr (Or.inr (List.mem_cons_self _ _))
      have hnn := trimChars_ne_nil_of_mem _ ',' hcm (by decide)
      simpa [List.isEmpty_iff] using hnn
  have hrne : (pairsOf items).map rowOfPair ≠ [] :=
    fun h => hne (List.map_eq_nil_iff.mp h)
  have hlen : ¬((headerStr :: (pairsOf items).map rowOfPair).length < 2) := by
    have hpos := List.length_pos.mpr hrne
    simp only [List.length_cons]
    omega
  obtain ⟨htuples, -⟩ := processRows_tuples (pairsOf items) hclp ⟨[], 0⟩
    (fun e he => absurd he (List.not_mem_nil e))
  refine ⟨(processRows ((pairsOf items).map rowOfPair) ⟨[], 0⟩).itemsMap.map Prod.snd,
    ?_, ?_⟩
  · unfold parseCSV parseCSVFull
    simp only [hsplit, hfilter]
    rw [if_neg hlen]
    rfl
  · rw [show (↑(ptuples ((processRows ((pairsOf items).map rowOfPair)
          ⟨[], 0⟩).itemsMap.map Prod.snd)) : Multiset Tup)
        = mapTuples (processRows ((pairsOf items).map rowOfPair) ⟨[], 0⟩).itemsMap
      from rfl]
    rw [htuples, htup]
    rw [show mapTuples (⟨[], 0⟩ : ParseState).itemsMap = 0 from rfl, zero_add]

/-- C3 witness: the amended round trip evaluated on a concrete clean
inventory. -/
theorem merge_roundtrip_witness :
    ∃ l, parseCSV (exportCSV cleanSampleItems) = .ok l ∧
      (↑(ptuples l) : Multiset Tup) = ↑(ituples cleanSampleItems) :=
  merge_roundtrip_ok cleanSampleItems (by decide) (by decide)

end Inventory
